import Mathlib

/-!
# Verification of the HeliosLang/tx transaction layer

A shallow embedding of `src/babbage/tx/Tx.js` (the `Tx` validation engine,
`TxOutput`, `calcScriptDataHash`) and `NetworkParamsHelper`, together with
models of the supporting entities (`TxBody`, `TxWitnesses`, `Value`,
`TxRedeemer`, ...) whose sources are not part of the provided tree; those
models follow the natural-language specification (data model §3, canonical
encoding §4.2, validation engine §4.4).

Machine integers of the JavaScript source (`bigint`) become `Int`; byte
arrays become `List Nat`; fallible code returns `Except` / `Option`;
in-place mutation becomes explicit state passing.

External collaborators (the generic CBOR codec, the blake2b hash, the
script VM) are embedded as follows: the CBOR primitives are implemented
concretely from the CBOR wire format (they are deterministic, fully
specified functions), while hash functions and the script VM are passed in
as explicit function parameters, mirroring the spec's instruction to treat
them as injected capabilities.
-/

namespace HeliosTx

/-! ## Big-endian fixed-width byte strings -/

/-- Fixed-width big-endian byte representation of a natural number
(`w` bytes, most significant first); the argument encoding used by CBOR
heads of widths 2, 4 and 8. -/
def toBE (w : Nat) (n : Nat) : List Nat :=
  match w with
  | 0 => []
  | w + 1 => toBE w (n / 256) ++ [n % 256]

/-- Reassemble a big-endian byte string into a natural number. -/
def fromBE (bs : List Nat) : Nat :=
  bs.foldl (fun acc b => acc * 256 + b) 0

theorem toBE_length (w n : Nat) : (toBE w n).length = w := by
  induction w generalizing n with
  | zero => rfl
  | succ w ih => simp [toBE, ih]

theorem fromBE_append (bs cs : List Nat) :
    fromBE (bs ++ cs) = cs.foldl (fun acc b => acc * 256 + b) (fromBE bs) := by
  simp [fromBE, List.foldl_append]

theorem fromBE_toBE (w n : Nat) (h : n < 256 ^ w) : fromBE (toBE w n) = n := by
  induction w generalizing n with
  | zero =>
    simp [toBE, fromBE]
    omega
  | succ w ih =>
    have hdiv : n / 256 < 256 ^ w := by
      rw [Nat.div_lt_iff_lt_mul (by norm_num)]
      calc n < 256 ^ (w + 1) := h
        _ = 256 ^ w * 256 := by ring
    simp only [toBE, fromBE_append]
    rw [show (fromBE (toBE w (n / 256))) = n / 256 from ih _ hdiv]
    simp [Nat.div_add_mod]
    omega

/-! ## CBOR heads

`encodeHead m n` is the canonical CBOR head for major type `m` with
argument `n`: the shortest of the five forms (immediate, 1-, 2-, 4- or
8-byte argument).  `parseHead` accepts any of the forms. -/

def encodeHead (m : Nat) (n : Nat) : List Nat :=
  if n < 24 then [32 * m + n]
  else if n < 256 then [32 * m + 24, n]
  else if n < 65536 then (32 * m + 25) :: toBE 2 n
  else if n < 4294967296 then (32 * m + 26) :: toBE 4 n
  else (32 * m + 27) :: toBE 8 n

/-- Parse a CBOR head: returns (major type, argument, rest). -/
def parseHead (bs : List Nat) : Option (Nat × Nat × List Nat) :=
  match bs with
  | [] => none
  | b :: rest =>
    let m := b / 32
    let info := b % 32
    if info < 24 then some (m, info, rest)
    else if info = 24 then
      match rest with
      | x :: rest' => some (m, x, rest')
      | [] => none
    else if info = 25 then
      if h : 2 ≤ rest.length then
        some (m, fromBE (rest.take 2), rest.drop 2)
      else none
    else if info = 26 then
      if h : 4 ≤ rest.length then
        some (m, fromBE (rest.take 4), rest.drop 4)
      else none
    else if info = 27 then
      if h : 8 ≤ rest.length then
        some (m, fromBE (rest.take 8), rest.drop 8)
      else none
    else none

theorem take_append_of_length (xs ys : List Nat) (w : Nat) (h : xs.length = w) :
    (xs ++ ys).take w = xs := by
  subst h; simp

theorem drop_append_of_length (xs ys : List Nat) (w : Nat) (h : xs.length = w) :
    (xs ++ ys).drop w = ys := by
  subst h; simp

theorem parseHead_encodeHead (m n : Nat) (hm : m < 8) (hn : n < 2 ^ 64)
    (rest : List Nat) :
    parseHead (encodeHead m n ++ rest) = some (m, n, rest) := by
  have h32 : 32 * m / 32 = m := by omega
  unfold encodeHead
  by_cases h1 : n < 24
  · simp only [if_pos h1, List.cons_append, List.nil_append, parseHead]
    have hdiv : (32 * m + n) / 32 = m := by omega
    have hmod : (32 * m + n) % 32 = n := by omega
    simp [hdiv, hmod, h1]
  · rw [if_neg h1]
    by_cases h2 : n < 256
    · simp only [if_pos h2, List.cons_append, parseHead]
      have hdiv : (32 * m + 24) / 32 = m := by omega
      have hmod : (32 * m + 24) % 32 = 24 := by omega
      simp [hdiv, hmod]
    · rw [if_neg h2]
      by_cases h3 : n < 65536
      · simp only [if_pos h3, List.cons_append, parseHead]
        have hdiv : (32 * m + 25) / 32 = m := by omega
        have hmod : (32 * m + 25) % 32 = 25 := by omega
        simp only [hdiv, hmod]
        norm_num
        have hlen : (toBE 2 n).length = 2 := toBE_length 2 n
        refine ⟨by omega, ?_, drop_append_of_length _ _ _ hlen⟩
        rw [take_append_of_length _ _ _ hlen, fromBE_toBE 2 n (by norm_num; omega)]
      · rw [if_neg h3]
        by_cases h4 : n < 4294967296
        · simp only [if_pos h4, List.cons_append, parseHead]
          have hdiv : (32 * m + 26) / 32 = m := by omega
          have hmod : (32 * m + 26) % 32 = 26 := by omega
          simp only [hdiv, hmod]
          norm_num
          have hlen : (toBE 4 n).length = 4 := toBE_length 4 n
          refine ⟨by omega, ?_, drop_append_of_length _ _ _ hlen⟩
          rw [take_append_of_length _ _ _ hlen, fromBE_toBE 4 n (by norm_num; omega)]
        · rw [if_neg h4]
          simp only [List.cons_append, parseHead]
          have hdiv : (32 * m + 27) / 32 = m := by omega
          have hmod : (32 * m + 27) % 32 = 27 := by omega
          simp only [hdiv, hmod]
          norm_num
          have hlen : (toBE 8 n).length = 8 := toBE_length 8 n
          refine ⟨by omega, ?_, drop_append_of_length _ _ _ hlen⟩
          rw [take_append_of_length _ _ _ hlen, fromBE_toBE 8 n (by norm_num; omega)]

theorem encodeHead_length_pos (m n : Nat) : 0 < (encodeHead m n).length := by
  unfold encodeHead
  split_ifs <;> simp

/-! ## CBOR data items

A structured view of the CBOR fragment the ledger uses: integers, byte
strings, definite-length arrays and integer-or-item-keyed maps, tags, and
the simple values `true`/`false`/`null`.  Arrays and map entry lists are
their own inductive types (rather than `List`) so that every function below
is structurally recursive and reducible by the kernel. -/

/-- Minimal big-endian byte string of a natural number (used only for the
CBOR bignum fallback of integers outside the 8-byte head range). -/
def natBE (n : Nat) : List Nat :=
  if h : n = 0 then []
  else natBE (n / 256) ++ [n % 256]
decreasing_by exact Nat.div_lt_self (Nat.pos_of_ne_zero h) (by norm_num)

mutual

inductive CborItem : Type where
  | int (n : Int)
  | bytes (bs : List Nat)
  | array (xs : CborList)
  | map (prs : CborPairs)
  | tag (t : Nat) (x : CborItem)
  | bool (b : Bool)
  | null
  deriving DecidableEq

inductive CborList : Type where
  | nil
  | cons (x : CborItem) (xs : CborList)
  deriving DecidableEq

inductive CborPairs : Type where
  | nil
  | cons (k : CborItem) (v : CborItem) (prs : CborPairs)
  deriving DecidableEq

end

def CborList.ofList : List CborItem → CborList
  | [] => .nil
  | x :: xs => .cons x (CborList.ofList xs)

def CborList.toList : CborList → List CborItem
  | .nil => []
  | .cons x xs => x :: xs.toList

def CborList.length : CborList → Nat
  | .nil => 0
  | .cons _ xs => xs.length + 1

def CborPairs.ofList : List (CborItem × CborItem) → CborPairs
  | [] => .nil
  | (k, v) :: prs => .cons k v (CborPairs.ofList prs)

def CborPairs.toList : CborPairs → List (CborItem × CborItem)
  | .nil => []
  | .cons k v prs => (k, v) :: prs.toList

def CborPairs.length : CborPairs → Nat
  | .nil => 0
  | .cons _ _ prs => prs.length + 1

theorem CborList.toList_ofList (xs : List CborItem) :
    (CborList.ofList xs).toList = xs := by
  induction xs with
  | nil => rfl
  | cons x xs ih => simp [CborList.ofList, CborList.toList, ih]

theorem CborList.length_ofList (xs : List CborItem) :
    (CborList.ofList xs).length = xs.length := by
  induction xs with
  | nil => rfl
  | cons x xs ih => simp [CborList.ofList, CborList.length, ih]

theorem CborPairs.toList_ofPairs (prs : List (CborItem × CborItem)) :
    (CborPairs.ofList prs).toList = prs := by
  induction prs with
  | nil => rfl
  | cons p prs ih =>
    obtain ⟨k, v⟩ := p
    simp [CborPairs.ofList, CborPairs.toList, ih]

theorem CborPairs.length_ofPairs (prs : List (CborItem × CborItem)) :
    (CborPairs.ofList prs).length = prs.length := by
  induction prs with
  | nil => rfl
  | cons p prs ih =>
    obtain ⟨k, v⟩ := p
    simp [CborPairs.ofList, CborPairs.length, ih]

/-! ### Serialization (canonical encoding) -/

mutual

/-- Canonical CBOR encoding of an item: minimal-length heads; integers
within the 8-byte head range use major types 0/1, larger ones fall back to
the tagged bignum form. -/
def CborItem.serialize : CborItem → List Nat
  | .int n =>
    if 0 ≤ n then
      if n < 2 ^ 64 then encodeHead 0 n.toNat
      else encodeHead 6 2 ++ encodeHead 2 (natBE n.toNat).length ++ natBE n.toNat
    else
      if -(2 ^ 64) ≤ n then encodeHead 1 (-1 - n).toNat
      else
        encodeHead 6 3 ++ encodeHead 2 (natBE (-1 - n).toNat).length ++
          natBE (-1 - n).toNat
  | .bytes bs => encodeHead 2 bs.length ++ bs
  | .array xs => encodeHead 4 xs.length ++ xs.serialize
  | .map prs => encodeHead 5 prs.length ++ prs.serialize
  | .tag t x => encodeHead 6 t ++ x.serialize
  | .bool b => if b then [245] else [244]
  | .null => [246]

def CborList.serialize : CborList → List Nat
  | .nil => []
  | .cons x xs => x.serialize ++ xs.serialize

def CborPairs.serialize : CborPairs → List Nat
  | .nil => []
  | .cons k v prs => k.serialize ++ v.serialize ++ prs.serialize

end

mutual

/-- Well-formedness for round-tripping: every integer fits the 8-byte head
range and every length/tag argument fits in a CBOR head (always true of the
data this ledger layer builds). -/
def CborItem.wf : CborItem → Bool
  | .int n => decide (-(2 ^ 64) ≤ n) && decide (n < 2 ^ 64)
  | .bytes bs => decide (bs.length < 2 ^ 64)
  | .array xs => decide (xs.length < 2 ^ 64) && xs.wf
  | .map prs => decide (prs.length < 2 ^ 64) && prs.wf
  | .tag t x => decide (t < 2 ^ 64) && x.wf
  | .bool _ => true
  | .null => true

def CborList.wf : CborList → Bool
  | .nil => true
  | .cons x xs => x.wf && xs.wf

def CborPairs.wf : CborPairs → Bool
  | .nil => true
  | .cons k v prs => k.wf && v.wf && prs.wf

end

theorem CborItem.serialize_length_pos (it : CborItem) :
    0 < it.serialize.length := by
  cases it <;>
    simp only [CborItem.serialize] <;>
    first
      | (split_ifs <;> simp [encodeHead_length_pos])
      | simp [encodeHead_length_pos]

/-! ### Parsing -/

mutual

/-- Fuel-indexed CBOR parser; `fuel` only bounds recursion depth, any
`fuel ≥ 2 × input length + 2` behaves identically (see
`parseItem_serialize`).  Mirrors the shape dispatch of the external
`@helios-lang/cbor` decoders on the fragment used by the ledger. -/
def parseItem : Nat → List Nat → Option (CborItem × List Nat)
  | 0, _ => none
  | fuel + 1, bs =>
    match parseHead bs with
    | none => none
    | some (m, n, rest) =>
      if m = 0 then some (.int (Int.ofNat n), rest)
      else if m = 1 then some (.int (-1 - Int.ofNat n), rest)
      else if m = 2 then
        if n ≤ rest.length then some (.bytes (rest.take n), rest.drop n)
        else none
      else if m = 4 then
        match parseItems fuel n rest with
        | some (xs, rest') => some (.array xs, rest')
        | none => none
      else if m = 5 then
        match parsePairs fuel n rest with
        | some (prs, rest') => some (.map prs, rest')
        | none => none
      else if m = 6 then
        match parseItem fuel rest with
        | some (x, rest') => some (.tag n x, rest')
        | none => none
      else if m = 7 then
        if n = 20 then some (.bool false, rest)
        else if n = 21 then some (.bool true, rest)
        else if n = 22 then some (.null, rest)
        else none
      else none

def parseItems : Nat → Nat → List Nat → Option (CborList × List Nat)
  | _, 0, bs => some (.nil, bs)
  | 0, _ + 1, _ => none
  | fuel + 1, n + 1, bs =>
    match parseItem fuel bs with
    | some (x, bs') =>
      match parseItems fuel n bs' with
      | some (xs, rest) => some (.cons x xs, rest)
      | none => none
    | none => none

def parsePairs : Nat → Nat → List Nat → Option (CborPairs × List Nat)
  | _, 0, bs => some (.nil, bs)
  | 0, _ + 1, _ => none
  | fuel + 1, n + 1, bs =>
    match parseItem fuel bs with
    | some (k, bs') =>
      match parseItem fuel bs' with
      | some (v, bs'') =>
        match parsePairs fuel n bs'' with
        | some (prs, rest) => some (.cons k v prs, rest)
        | none => none
      | none => none
    | none => none

end

/-! ### Parse/serialize round trip -/

theorem parse_serialize_all : ∀ fuel : Nat,
    (∀ (it : CborItem) (rest : List Nat), it.wf = true →
      2 * it.serialize.length ≤ fuel →
      parseItem fuel (it.serialize ++ rest) = some (it, rest)) ∧
    (∀ (xs : CborList) (rest : List Nat), xs.wf = true →
      2 * xs.serialize.length + 1 ≤ fuel →
      parseItems fuel xs.length (xs.serialize ++ rest) = some (xs, rest)) ∧
    (∀ (prs : CborPairs) (rest : List Nat), prs.wf = true →
      2 * prs.serialize.length + 1 ≤ fuel →
      parsePairs fuel prs.length (prs.serialize ++ rest) = some (prs, rest)) := by
  intro fuel
  induction fuel with
  | zero =>
    refine ⟨?_, ?_, ?_⟩
    · intro it rest _ hlen
      have := it.serialize_length_pos
      omega
    · intro xs rest _ hlen; omega
    · intro prs rest _ hlen; omega
  | succ fuel ih =>
    obtain ⟨ihItem, ihList, ihPairs⟩ := ih
    refine ⟨?_, ?_, ?_⟩
    · intro it rest hwf hlen
      cases it with
      | int n =>
        simp only [CborItem.wf, Bool.and_eq_true, decide_eq_true_eq] at hwf
        obtain ⟨hlo, hhi⟩ := hwf
        by_cases hn : 0 ≤ n
        · have hter : n.toNat < 2 ^ 64 := by omega
          simp only [CborItem.serialize, if_pos hn, if_pos hhi, parseItem]
          rw [parseHead_encodeHead 0 n.toNat (by norm_num) hter]
          simp [Int.toNat_of_nonneg hn]
        · have hn' : 0 ≤ -1 - n := by omega
          have hter : (-1 - n).toNat < 2 ^ 64 := by omega
          simp only [CborItem.serialize, if_neg hn, if_pos hlo, parseItem]
          rw [parseHead_encodeHead 1 (-1 - n).toNat (by norm_num) hter]
          have : (Int.ofNat (-1 - n).toNat) = -1 - n := Int.toNat_of_nonneg hn'
          simp only [this]
          norm_num
      | bytes bs =>
        simp only [CborItem.wf, decide_eq_true_eq] at hwf
        simp only [CborItem.serialize, List.append_assoc, parseItem]
        rw [parseHead_encodeHead 2 bs.length (by norm_num) hwf]
        have htake := take_append_of_length bs rest bs.length rfl
        have hdrop := drop_append_of_length bs rest bs.length rfl
        simp [htake, hdrop]
      | array xs =>
        simp only [CborItem.wf, Bool.and_eq_true, decide_eq_true_eq] at hwf
        obtain ⟨hsz, hwf⟩ := hwf
        have hpos := encodeHead_length_pos 4 xs.length
        simp only [CborItem.serialize] at hlen ⊢
        simp only [List.append_assoc, parseItem]
        rw [parseHead_encodeHead 4 xs.length (by norm_num) hsz]
        norm_num
        rw [ihList xs rest hwf (by simp at hlen ⊢; omega)]
      | map prs =>
        simp only [CborItem.wf, Bool.and_eq_true, decide_eq_true_eq] at hwf
        obtain ⟨hsz, hwf⟩ := hwf
        have hpos := encodeHead_length_pos 5 prs.length
        simp only [CborItem.serialize] at hlen ⊢
        simp only [List.append_assoc, parseItem]
        rw [parseHead_encodeHead 5 prs.length (by norm_num) hsz]
        norm_num
        rw [ihPairs prs rest hwf (by simp at hlen ⊢; omega)]
      | tag t x =>
        simp only [CborItem.wf, Bool.and_eq_true, decide_eq_true_eq] at hwf
        obtain ⟨ht, hwf⟩ := hwf
        have hpos := encodeHead_length_pos 6 t
        simp only [CborItem.serialize] at hlen ⊢
        simp only [List.append_assoc, parseItem]
        rw [parseHead_encodeHead 6 t (by norm_num) ht]
        norm_num
        rw [ihItem x rest hwf (by simp at hlen ⊢; omega)]
      | bool b =>
        cases b <;>
          simp [CborItem.serialize, parseItem, parseHead]
      | null =>
        simp [CborItem.serialize, parseItem, parseHead]
    · intro xs rest hwf hlen
      cases xs with
      | nil => simp [CborList.length, CborList.serialize, parseItems]
      | cons x xs =>
        simp only [CborList.wf, Bool.and_eq_true] at hwf
        obtain ⟨hwfx, hwfxs⟩ := hwf
        have hposx := x.serialize_length_pos
        simp only [CborList.serialize] at hlen
        simp only [CborList.length, CborList.serialize, List.append_assoc,
          parseItems]
        rw [ihItem x (xs.serialize ++ rest) hwfx (by simp at hlen ⊢; omega)]
        norm_num
        rw [ihList xs rest hwfxs (by simp at hlen ⊢; omega)]
    · intro prs rest hwf hlen
      cases prs with
      | nil => simp [CborPairs.length, CborPairs.serialize, parsePairs]
      | cons k v prs =>
        simp only [CborPairs.wf, Bool.and_eq_true] at hwf
        obtain ⟨⟨hwfk, hwfv⟩, hwfprs⟩ := hwf
        have hposk := k.serialize_length_pos
        have hposv := v.serialize_length_pos
        simp only [CborPairs.serialize] at hlen
        simp only [CborPairs.length, CborPairs.serialize, List.append_assoc,
          parsePairs]
        rw [ihItem k (v.serialize ++ (prs.serialize ++ rest)) hwfk
          (by simp at hlen ⊢; omega)]
        norm_num
        rw [ihItem v (prs.serialize ++ rest) hwfv (by simp at hlen ⊢; omega)]
        norm_num
        rw [ihPairs prs rest hwfprs (by simp at hlen ⊢; omega)]

/-- Parsing undoes serialization (any unconsumed tail is preserved). -/
theorem parseItem_serialize (it : CborItem) (rest : List Nat)
    (hwf : it.wf = true) :
    parseItem (2 * it.serialize.length) (it.serialize ++ rest) =
      some (it, rest) :=
  (parse_serialize_all (2 * it.serialize.length)).1 it rest hwf le_rfl

/-- Whole-input parse: succeeds exactly on byte strings that are a single
complete CBOR item. -/
def cborParse (bs : List Nat) : Option CborItem :=
  match parseItem (2 * bs.length + 2) bs with
  | some (it, []) => some it
  | _ => none

theorem cborParse_serialize (it : CborItem) (hwf : it.wf = true) :
    cborParse it.serialize = some it := by
  unfold cborParse
  have h := (parse_serialize_all (2 * it.serialize.length + 2)).1 it [] hwf
    (by omega)
  rw [List.append_nil] at h
  rw [h]

/-! ## The byte-level codec API used by the source

These mirror the `@helios-lang/cbor` functions imported by `Tx.js`
(external collaborators, implemented concretely from the CBOR wire
format). -/

def encodeInt (n : Int) : List Nat := (CborItem.int n).serialize

def encodeBytes (bs : List Nat) : List Nat := (CborItem.bytes bs).serialize

def encodeBool (b : Bool) : List Nat := (CborItem.bool b).serialize

def encodeTag (t : Nat) : List Nat := encodeHead 6 t

def encodeTuple (fields : List (List Nat)) : List Nat :=
  encodeHead 4 fields.length ++ fields.flatten

def encodeDefList (fields : List (List Nat)) : List Nat :=
  encodeHead 4 fields.length ++ fields.flatten

def encodeMap (entries : List (List Nat × List Nat)) : List Nat :=
  encodeHead 5 entries.length ++ (entries.map fun e => e.1 ++ e.2).flatten

def encodeObjectIKey (entries : List (Nat × List Nat)) : List Nat :=
  encodeHead 5 entries.length ++
    (entries.map fun e => encodeInt (Int.ofNat e.1) ++ e.2).flatten

def encodeNullOption (o : Option (List Nat)) : List Nat :=
  match o with
  | none => CborItem.null.serialize
  | some bs => bs

/-- Shorthand: a CBOR array item built from a `List`. -/
def cArr (xs : List CborItem) : CborItem := .array (.ofList xs)

/-- Shorthand: a CBOR map item built from a `List` of pairs. -/
def cMap (prs : List (CborItem × CborItem)) : CborItem := .map (.ofList prs)

theorem CborList.serialize_ofList (xs : List CborItem) :
    (CborList.ofList xs).serialize = (xs.map CborItem.serialize).flatten := by
  induction xs with
  | nil => rfl
  | cons x xs ih => simp [CborList.ofList, CborList.serialize, ih]

theorem CborPairs.serialize_ofPairs (prs : List (CborItem × CborItem)) :
    (CborPairs.ofList prs).serialize =
      (prs.map fun p => p.1.serialize ++ p.2.serialize).flatten := by
  induction prs with
  | nil => rfl
  | cons p prs ih =>
    obtain ⟨k, v⟩ := p
    simp [CborPairs.ofList, CborPairs.serialize, ih]

theorem serialize_cArr (xs : List CborItem) :
    (cArr xs).serialize = encodeTuple (xs.map CborItem.serialize) := by
  simp [cArr, CborItem.serialize, encodeTuple, CborList.length_ofList,
    CborList.serialize_ofList]

theorem serialize_cMap (prs : List (CborItem × CborItem)) :
    (cMap prs).serialize =
      encodeMap (prs.map fun p => (p.1.serialize, p.2.serialize)) := by
  simp only [cMap, CborItem.serialize, encodeMap, CborPairs.length_ofPairs,
    CborPairs.serialize_ofPairs, List.map_map, List.length_map]
  congr 1

theorem CborList.wf_ofList (xs : List CborItem) :
    (CborList.ofList xs).wf = xs.all CborItem.wf := by
  induction xs with
  | nil => rfl
  | cons x xs ih => simp [CborList.ofList, CborList.wf, ih]

theorem CborPairs.wf_ofPairs (prs : List (CborItem × CborItem)) :
    (CborPairs.ofList prs).wf =
      prs.all fun p => p.1.wf && p.2.wf := by
  induction prs with
  | nil => rfl
  | cons p prs ih =>
    obtain ⟨k, v⟩ := p
    simp [CborPairs.ofList, CborPairs.wf, ih]

/-! ## Network parameters

From `NetworkParamsHelper` (`src/unnamed/part_001`).  The helper wraps a
raw snapshot and fails on missing fields; the claims under verification do
not exercise the missing-field paths, so the snapshot is modelled as a
total record and each derived quantity as a getter. -/

structure NetworkParams where
  txFeeFixed : Nat
  txFeePerByte : Nat
  /-- Price per memory unit (modelled as an integer price; the snapshot
  stores a rational and the claims treat the execution fee as opaque). -/
  priceMem : Nat
  /-- Price per cpu step (same modelling note as `priceMem`). -/
  priceCpu : Nat
  maxCollateralInputs : Nat
  collateralPercentage : Nat
  utxoCostPerByte : Nat
  stakeAddressDeposit : Int
  maxTxSize : Nat
  maxTxExMem : Nat
  maxTxExCpu : Nat
  /-- The `costModels.PlutusScriptV2` object: association list from
  parameter name to value, in snapshot order. -/
  costModelV2 : List (String × Int)

namespace NetworkParams

/-- `NetworkParamsHelper.txFeeParams`: the linear fee coefficients `(a, b)`
with fee `a + b × txSize`. -/
def txFeeParams (p : NetworkParams) : Nat × Nat := (p.txFeeFixed, p.txFeePerByte)

/-- `NetworkParamsHelper.lovelacePerUTXOByte`. -/
def lovelacePerUTXOByte (p : NetworkParams) : Nat := p.utxoCostPerByte

/-- `NetworkParamsHelper.minCollateralPct`. -/
def minCollateralPct (p : NetworkParams) : Nat := p.collateralPercentage

/-- `NetworkParamsHelper.maxTxExecutionBudget`. -/
def maxTxExecutionBudget (p : NetworkParams) : Nat × Nat :=
  (p.maxTxExMem, p.maxTxExCpu)

/-- `NetworkParamsHelper.sortedV2CostParams`: the cost-model values sorted
by ascending parameter name (`keys.sort()` in the source). -/
def sortedV2CostParams (p : NetworkParams) : List Int :=
  ((p.costModelV2.map Prod.fst).mergeSort (fun a b => decide (a ≤ b))).filterMap
    (fun k => (p.costModelV2.find? (fun e => e.1 = k)).map Prod.snd)

end NetworkParams

/-! ## Multi-asset values

Modelled from the spec (§3 **Value**, §4.1): the `Value` / `Assets` classes
of `../money` are not part of the provided sources.  `Assets` is a
two-level association list `policy id → asset name → signed quantity`;
arithmetic merges entry-wise and prunes zero results. -/

/-- Insert a quantity into an asset-name ledger, merging with an existing
entry for the same name. -/
def insertQty (ns : List (List Nat × Int)) (name : List Nat) (q : Int) :
    List (List Nat × Int) :=
  match ns with
  | [] => [(name, q)]
  | (n, q0) :: rest =>
    if n = name then (n, q0 + q) :: rest else (n, q0) :: insertQty rest name q

structure Assets where
  groups : List (List Nat × List (List Nat × Int))
deriving DecidableEq

namespace Assets

def empty : Assets := ⟨[]⟩

/-- Merge one `(policy, name, qty)` entry into the two-level ledger. -/
def insertEntry (a : Assets) (policy name : List Nat) (q : Int) : Assets :=
  ⟨go a.groups⟩
where
  go : List (List Nat × List (List Nat × Int)) →
      List (List Nat × List (List Nat × Int))
    | [] => [(policy, [(name, q)])]
    | (p, ns) :: rest =>
      if p = policy then (p, insertQty ns name q) :: rest
      else (p, ns) :: go rest

/-- Remove zero quantities and empty policy groups (the spec's invariant
that no zero-quantity entries persist after arithmetic). -/
def prune (a : Assets) : Assets :=
  ⟨(a.groups.map fun g => (g.1, g.2.filter fun e => !(e.2 = 0 : Bool))).filter
    fun g => !g.2.isEmpty⟩

/-- Entry-wise sum of two ledgers, scaling the second by `factor`
(`1` for `add`, `-1` for `subtract`), pruning zeros afterwards. -/
def combine (factor : Int) (a b : Assets) : Assets :=
  prune (b.groups.foldl
    (fun acc g => g.2.foldl
      (fun acc e => insertEntry acc g.1 e.1 (factor * e.2)) acc) a)

def add (a b : Assets) : Assets := combine 1 a b

def subtract (a b : Assets) : Assets := combine (-1) a b

/-- `Assets.isZero`: every remaining quantity is zero. -/
def isZero (a : Assets) : Bool :=
  a.groups.all fun g => g.2.all fun e => e.2 = 0

/-- `Assets.getPolicies`: the policy ids, in ledger order. -/
def getPolicies (a : Assets) : List (List Nat) := a.groups.map Prod.fst

/-- CBOR item of the ledger: map from policy id to map from asset name to
quantity. -/
def toCborItem (a : Assets) : CborItem :=
  cMap (a.groups.map fun g =>
    (CborItem.bytes g.1,
      cMap (g.2.map fun e => (CborItem.bytes e.1, CborItem.int e.2))))

def ofQtyPair : CborItem × CborItem → Option (List Nat × Int)
  | (.bytes n, .int q) => some (n, q)
  | _ => none

def ofGroupPair : CborItem × CborItem → Option (List Nat × List (List Nat × Int))
  | (.bytes p, .map ns) => (ns.toList.mapM ofQtyPair).map fun l => (p, l)
  | _ => none

def ofCborItem : CborItem → Option Assets
  | .map prs => (prs.toList.mapM ofGroupPair).map Assets.mk
  | _ => none

end Assets

/-- Modelled from the spec (§3): a value is a base-unit quantity plus the
multi-asset ledger. -/
structure Value where
  lovelace : Int
  assets : Assets
deriving DecidableEq

namespace Value

def zero : Value := ⟨0, Assets.empty⟩

def add (a b : Value) : Value :=
  ⟨a.lovelace + b.lovelace, a.assets.add b.assets⟩

def subtract (a b : Value) : Value :=
  ⟨a.lovelace - b.lovelace, a.assets.subtract b.assets⟩

/-- CBOR item of a value: a bare integer when no assets remain, otherwise
the pair `[lovelace, assets]`. -/
def toCborItem (v : Value) : CborItem :=
  if v.assets.isZero then .int v.lovelace
  else cArr [.int v.lovelace, v.assets.toCborItem]

def ofCborItem : CborItem → Option Value
  | .int n => some ⟨n, Assets.empty⟩
  | .array (.cons (.int n) (.cons a .nil)) =>
    (Assets.ofCborItem a).map fun assets => ⟨n, assets⟩
  | _ => none

/-- `Value.toCbor`. -/
def toCbor (v : Value) : List Nat := v.toCborItem.serialize

end Value

theorem Value.add_lovelace (a b : Value) :
    (a.add b).lovelace = a.lovelace + b.lovelace := rfl

theorem Value.subtract_lovelace (a b : Value) :
    (a.subtract b).lovelace = a.lovelace - b.lovelace := rfl

/-! ## Addresses and credentials

Modelled from the spec (§3 **Address**): a spending credential (key hash or
script hash) plus an optional staking credential, with a network tag; the
wire form is a CBOR byte string whose first byte packs the kind
information, followed by the 28-byte hashes. -/

inductive Credential where
  | pubKey (hash : List Nat)
  | validator (hash : List Nat)
deriving DecidableEq

def Credential.hash : Credential → List Nat
  | .pubKey h => h
  | .validator h => h

def Credential.isScript : Credential → Bool
  | .pubKey _ => false
  | .validator _ => true

structure Address where
  testnet : Bool
  spending : Credential
  staking : Option Credential
deriving DecidableEq

namespace Address

/-- `Address.pubKeyHash`: the spending credential's hash when it is a key. -/
def pubKeyHash (a : Address) : Option (List Nat) :=
  match a.spending with
  | .pubKey h => some h
  | .validator _ => none

/-- `Address.validatorHash`: the spending credential's hash when it is a
script. -/
def validatorHash (a : Address) : Option (List Nat) :=
  match a.spending with
  | .pubKey _ => none
  | .validator h => some h

/-- Header byte packing the spending kind, staking kind and network tag. -/
def header (a : Address) : Nat :=
  (if a.spending.isScript then 1 else 0) +
    2 * (match a.staking with
      | none => 0
      | some (.pubKey _) => 1
      | some (.validator _) => 2) +
    6 * (if a.testnet then 0 else 1)

/-- Raw binary form: header byte, spending hash, optional staking hash. -/
def toRawBytes (a : Address) : List Nat :=
  a.header :: a.spending.hash ++ (a.staking.map Credential.hash).getD []

def toCborItem (a : Address) : CborItem := .bytes a.toRawBytes

/-- `Address.toCbor`: the raw form wrapped as a CBOR byte string. -/
def toCbor (a : Address) : List Nat := a.toCborItem.serialize

def ofRawBytes (bs : List Nat) : Option Address :=
  match bs with
  | [] => none
  | h :: rest =>
    let testnet := h / 6 % 2 = 0
    let spendHash := rest.take 28
    let stakeBytes := rest.drop 28
    let spending := if h % 2 = 1 then Credential.validator spendHash
      else Credential.pubKey spendHash
    if rest.length < 28 then none
    else
      match h / 2 % 3 with
      | 0 => if stakeBytes.isEmpty then some ⟨testnet, spending, none⟩ else none
      | 1 => some ⟨testnet, spending, some (.pubKey stakeBytes)⟩
      | _ => some ⟨testnet, spending, some (.validator stakeBytes)⟩

def ofCborItem : CborItem → Option Address
  | .bytes bs => ofRawBytes bs
  | _ => none

/-- Structural well-formedness: 28-byte hashes (the `HashId` invariant of
the spec's data model). -/
def wfB (a : Address) : Bool :=
  decide (a.spending.hash.length = 28) &&
    (match a.staking with
      | none => true
      | some c => decide (c.hash.length = 28))

end Address

/-! ## Staking addresses, certificates -/

/-- Modelled from the spec: a staking credential is a key or script hash. -/
structure StakingCredential where
  isScript : Bool
  hash : List Nat
deriving DecidableEq

/-- Modelled from the spec: a staking address wraps a staking credential
with a network tag; its wire form is a byte string. -/
structure StakingAddress where
  testnet : Bool
  cred : StakingCredential
deriving DecidableEq

namespace StakingAddress

def toRawBytes (sa : StakingAddress) : List Nat :=
  ((if sa.cred.isScript then 1 else 0) + 2 * (if sa.testnet then 0 else 1)) ::
    sa.cred.hash

def toCborItem (sa : StakingAddress) : CborItem := .bytes sa.toRawBytes

def ofCborItem : CborItem → Option StakingAddress
  | .bytes (h :: hash) =>
    some ⟨h / 2 % 2 = 0, ⟨h % 2 = 1, hash⟩⟩
  | _ => none

end StakingAddress

/-- Modelled from the spec (§3 **TxBody** certificates): stake registration
and deregistration certificates carry deposit effects; other kinds are
represented by `delegate`. -/
inductive DCert where
  | register (cred : StakingCredential)
  | deregister (cred : StakingCredential)
  | delegate (cred : StakingCredential) (pool : List Nat)
deriving DecidableEq

namespace DCert

def isRegister : DCert → Bool
  | .register _ => true
  | _ => false

def isDeregister : DCert → Bool
  | .deregister _ => true
  | _ => false

def credItem (c : StakingCredential) : CborItem :=
  cArr [.int (if c.isScript then 1 else 0), .bytes c.hash]

def toCborItem : DCert → CborItem
  | .register c => cArr [.int 0, credItem c]
  | .deregister c => cArr [.int 1, credItem c]
  | .delegate c pool => cArr [.int 2, credItem c, .bytes pool]

def ofCredItem : CborItem → Option StakingCredential
  | .array (.cons (.int k) (.cons (.bytes h) .nil)) =>
    if k = 0 then some ⟨false, h⟩
    else if k = 1 then some ⟨true, h⟩
    else none
  | _ => none

def ofCborItem : CborItem → Option DCert
  | .array (.cons (.int 0) (.cons c .nil)) => (ofCredItem c).map .register
  | .array (.cons (.int 1) (.cons c .nil)) => (ofCredItem c).map .deregister
  | .array (.cons (.int 2) (.cons c (.cons (.bytes pool) .nil))) =>
    (ofCredItem c).map fun cr => .delegate cr pool
  | _ => none

end DCert

/-! ## Datums, scripts, signatures, redeemers -/

/-- Modelled from the spec (§3 **TxOutput**): an output datum is either a
hash reference or an inline data value.  Script-language data values
(`UplcData`) are identified with their CBOR items. -/
inductive TxOutputDatum where
  | hash (h : List Nat)
  | inline (data : CborItem)
deriving DecidableEq

namespace TxOutputDatum

def isHash : TxOutputDatum → Bool
  | .hash _ => true
  | .inline _ => false

/-- The inline data value when present (`TxOutputDatum.data`). -/
def data : TxOutputDatum → Option CborItem
  | .hash _ => none
  | .inline d => some d

/-- The referenced hash when present (`TxOutputDatum.hash`). -/
def hashOf : TxOutputDatum → Option (List Nat)
  | .hash h => some h
  | .inline _ => none

/-- Babbage `datum_option`: `[0, hash]` or `[1, #6.24(bytes .cbor data)]`. -/
def toCborItem : TxOutputDatum → CborItem
  | .hash h => cArr [.int 0, .bytes h]
  | .inline d => cArr [.int 1, .tag 24 (.bytes d.serialize)]

def ofCborItem : CborItem → Option TxOutputDatum
  | .array (.cons (.int 0) (.cons (.bytes h) .nil)) => some (.hash h)
  | .array (.cons (.int 1) (.cons (.tag 24 (.bytes bs)) .nil)) =>
    (cborParse bs).map .inline
  | _ => none

end TxOutputDatum

/-- Modelled from the spec: a versioned Plutus program; `code` stands for
the program's serialized byte string, treated as opaque (the UPLC layer is
an external collaborator). -/
structure UplcProgram where
  plutusVersionTag : Nat
  code : List Nat
deriving DecidableEq

namespace UplcProgram

def toCborItem (s : UplcProgram) : CborItem := .bytes s.code

/-- `UplcProgram.toCbor`: the program bytes wrapped as a CBOR byte
string. -/
def toCbor (s : UplcProgram) : List Nat := s.toCborItem.serialize

/-- `UplcProgram.hash()`: the script hash, computed by the injected hash
function over the version byte followed by the program bytes. -/
def hashWith (hashFn : List Nat → List Nat) (s : UplcProgram) : List Nat :=
  hashFn (s.plutusVersionTag :: s.code)

end UplcProgram

/-- Modelled from the spec (§3 **TxWitnesses**): a signature is a public
key together with signature bytes. -/
structure Signature where
  pubKey : List Nat
  bytes : List Nat
deriving DecidableEq

namespace Signature

/-- `Signature.dummy()`: the all-zero placeholder signature used for fee
sizing. -/
def dummy : Signature := ⟨List.replicate 32 0, List.replicate 64 0⟩

def isDummy (s : Signature) : Bool := s = dummy

def toCborItem (s : Signature) : CborItem :=
  cArr [.bytes s.pubKey, .bytes s.bytes]

def ofCborItem : CborItem → Option Signature
  | .array (.cons (.bytes pk) (.cons (.bytes sig) .nil)) => some ⟨pk, sig⟩
  | _ => none

end Signature

/-- Execution cost of a script run: memory units and cpu steps. -/
structure Cost where
  mem : Int
  cpu : Int
deriving DecidableEq

/-- Modelled from the spec (§3, glossary): redeemer purposes.  The spec's
data model names four script-invoking purposes. -/
inductive RedeemerKind where
  | spending
  | minting
  | certifying
  | rewarding
deriving DecidableEq

/-- Modelled from the spec: a redeemer carries its purpose, an index, a
data payload and a declared execution-cost budget. -/
structure TxRedeemer where
  kind : RedeemerKind
  index : Nat
  data : CborItem
  cost : Cost
deriving DecidableEq

namespace TxRedeemer

def isSpending (r : TxRedeemer) : Bool := r.kind = RedeemerKind.spending

def isMinting (r : TxRedeemer) : Bool := r.kind = RedeemerKind.minting

def kindTag : RedeemerKind → Nat
  | .spending => 0
  | .minting => 1
  | .certifying => 2
  | .rewarding => 3

def toCborItem (r : TxRedeemer) : CborItem :=
  cArr [.int (kindTag r.kind), .int r.index, r.data,
    cArr [.int r.cost.mem, .int r.cost.cpu]]

/-- `TxRedeemer.toCbor` (the element encoding used by `encodeDefList` in
`calcScriptDataHash`). -/
def toCbor (r : TxRedeemer) : List Nat := r.toCborItem.serialize

def ofCborItem : CborItem → Option TxRedeemer
  | .array (.cons (.int t) (.cons (.int i) (.cons d (.cons
      (.array (.cons (.int mem) (.cons (.int cpu) .nil))) .nil)))) =>
    if 0 ≤ i then
      let cost : Cost := ⟨mem, cpu⟩
      if t = 0 then some ⟨.spending, i.toNat, d, cost⟩
      else if t = 1 then some ⟨.minting, i.toNat, d, cost⟩
      else if t = 2 then some ⟨.certifying, i.toNat, d, cost⟩
      else if t = 3 then some ⟨.rewarding, i.toNat, d, cost⟩
      else none
    else none
  | _ => none

end TxRedeemer

/-! ## Transaction inputs and outputs -/

/-- Reference to a previous output: transaction id plus output index. -/
structure TxOutputId where
  txId : List Nat
  index : Nat
deriving DecidableEq

/-- Modelled from the spec (§3 **TxOutput**). -/
structure TxOutput where
  address : Address
  value : Value
  datum : Option TxOutputDatum
  refScript : Option UplcProgram
deriving DecidableEq

/-- Modelled from the spec (§3 **TxInput**): the output locator plus, when
known, the resolved output it spends; the resolved output is not part of
the wire identity. -/
structure TxInput where
  id : TxOutputId
  output : Option TxOutput
deriving DecidableEq

namespace TxInput

/-- `TxInput.address` (requires the resolved output). -/
def address (i : TxInput) : Option Address := i.output.map TxOutput.address

/-- `TxInput.value` (requires the resolved output). -/
def value (i : TxInput) : Option Value := i.output.map TxOutput.value

/-- `TxInput.datum` (requires the resolved output). -/
def datum (i : TxInput) : Option TxOutputDatum :=
  i.output.bind TxOutput.datum

/-- Wire form: `[txId, index]`; the resolved output is not encoded. -/
def toCborItem (i : TxInput) : CborItem :=
  cArr [.bytes i.id.txId, .int i.id.index]

def ofCborItem : CborItem → Option TxInput
  | .array (.cons (.bytes t) (.cons (.int n) .nil)) =>
    if 0 ≤ n then some ⟨⟨t, n.toNat⟩, none⟩ else none
  | _ => none

/-- The same input with the resolved output dropped, as a decoded wire
form yields it. -/
def strip (i : TxInput) : TxInput := ⟨i.id, none⟩

end TxInput

namespace TxOutput

/-- The compact-tuple eligibility condition of `TxOutput.toCbor`: datum
absent or a hash reference, no reference script, strict mode off. -/
def compactEligible (strict : Bool) (o : TxOutput) : Bool :=
  (match o.datum with
    | none => true
    | some d => d.isHash) && !o.refScript.isSome && !strict

/-- The item encoded under key 3 of the map form: CBOR tag 24 wrapping the
byte string of the tuple `(script version, script bytes)`. -/
def refScriptItem (s : UplcProgram) : CborItem :=
  .tag 24 (.bytes (cArr [.int s.plutusVersionTag, .bytes s.code]).serialize)

def toCborItem (strict : Bool) (o : TxOutput) : CborItem :=
  if compactEligible strict o then
    cArr ([o.address.toCborItem, o.value.toCborItem] ++
      (match o.datum with
        | some (.hash h) => [.bytes h]
        | _ => []))
  else
    cMap ([(.int 0, o.address.toCborItem), (.int 1, o.value.toCborItem)] ++
      (match o.datum with
        | some d => [(.int 2, d.toCborItem)]
        | none => []) ++
      (match o.refScript with
        | some s => [(.int 3, refScriptItem s)]
        | none => []))

/-- `TxOutput.toCbor` (from the source, `Tx.js` lines 1076–1123): the
compact tuple form when eligible, otherwise the integer-keyed map form;
`strict` stands for the `config.STRICT_BABBAGE` flag. -/
def toCbor (strict : Bool) (o : TxOutput) : List Nat :=
  if compactEligible strict o then
    let fields := [o.address.toCbor, o.value.toCbor]
    let fields := match o.datum with
      | some (.hash h) => fields ++ [encodeBytes h]
      | _ => fields
    encodeTuple fields
  else
    let object := [(0, o.address.toCbor), (1, o.value.toCbor)]
    let object := match o.datum with
      | some d => object ++ [(2, d.toCborItem.serialize)]
      | none => object
    let object := match o.refScript with
      | some s =>
        object ++
          [(3, encodeTag 24 ++
            encodeBytes (encodeTuple [encodeInt s.plutusVersionTag, s.toCbor]))]
      | none => object
    encodeObjectIKey object

def ofRefScriptBytes (bs : List Nat) : Option UplcProgram :=
  match cborParse bs with
  | some (.array (.cons (.int v) (.cons (.bytes code) .nil))) =>
    if v = 1 then some ⟨1, code⟩
    else if v = 2 then some ⟨2, code⟩
    else none
  | _ => none

/-- Decoder mirroring `TxOutput.fromCbor`: shape-dispatch between the map
form and the compact tuple form. -/
def ofCborItem : CborItem → Option TxOutput
  | .map prs => do
    match prs.toList with
    | (.int 0, a) :: (.int 1, v) :: rest =>
      let addr ← Address.ofCborItem a
      let val ← Value.ofCborItem v
      let (datum, rest') ←
        match rest with
        | (.int 2, d) :: r =>
          (TxOutputDatum.ofCborItem d).map fun dd =>
            ((some dd : Option TxOutputDatum), r)
        | r => some ((none : Option TxOutputDatum), r)
      let refScript ←
        match rest' with
        | [(.int 3, .tag 24 (.bytes rb))] =>
          (ofRefScriptBytes rb).map fun s => (some s : Option UplcProgram)
        | [] => some (none : Option UplcProgram)
        | _ => none
      pure ⟨addr, val, datum, refScript⟩
    | _ => none
  | .array (.cons a (.cons v .nil)) => do
    let addr ← Address.ofCborItem a
    let val ← Value.ofCborItem v
    pure ⟨addr, val, none, none⟩
  | .array (.cons a (.cons v (.cons (.bytes h) .nil))) => do
    let addr ← Address.ofCborItem a
    let val ← Value.ofCborItem v
    pure ⟨addr, val, some (.hash h), none⟩
  | _ => none

end TxOutput

/-! ## Witnesses -/

/-- Modelled from the spec (§3 **TxWitnesses**): signatures, datums,
redeemers and attached Plutus programs (native scripts are not modelled;
`scripts` plays the role of the source's `allScripts`). -/
structure TxWitnesses where
  signatures : List Signature
  datums : List CborItem
  redeemers : List TxRedeemer
  scripts : List UplcProgram
deriving DecidableEq

namespace TxWitnesses

/-- `TxWitnesses.allScripts`. -/
def allScripts (w : TxWitnesses) : List UplcProgram := w.scripts

/-- `TxWitnesses.isSmart()`: at least one script is attached. -/
def isSmart (w : TxWitnesses) : Bool := !w.scripts.isEmpty

/-- `TxWitnesses.addDummySignatures(n)`: append `n` placeholder
signatures. -/
def addDummySignatures (n : Nat) (w : TxWitnesses) : TxWitnesses :=
  { w with signatures := w.signatures ++ List.replicate n Signature.dummy }

/-- `TxWitnesses.removeDummySignatures(n)`: drop the `n` placeholder
signatures appended last. -/
def removeDummySignatures (n : Nat) (w : TxWitnesses) : TxWitnesses :=
  { w with signatures := w.signatures.take (w.signatures.length - n) }

/-- `TxWitnesses.countNonDummySignatures()`. -/
def countNonDummySignatures (w : TxWitnesses) : Nat :=
  (w.signatures.filter fun s => !s.isDummy).length

/-- `TxWitnesses.calcExFee(params)`: the execution fee summed over the
redeemers' declared budgets at the snapshot's prices. -/
def calcExFee (params : NetworkParams) (w : TxWitnesses) : Int :=
  w.redeemers.foldl
    (fun acc r =>
      acc + r.cost.mem * (params.priceMem : Int) +
        r.cost.cpu * (params.priceCpu : Int)) 0

/-- `TxWitnesses.findUplcProgram(hash)`: look up an attached program by its
script hash. -/
def findUplcProgram (hashFn : List Nat → List Nat) (h : List Nat)
    (w : TxWitnesses) : Option UplcProgram :=
  w.scripts.find? fun s => s.hashWith hashFn = h

def toCborItem (w : TxWitnesses) : CborItem :=
  cMap [(.int 0, cArr (w.signatures.map Signature.toCborItem)),
    (.int 4, cArr w.datums),
    (.int 5, cArr (w.redeemers.map TxRedeemer.toCborItem)),
    (.int 6, cArr (w.scripts.map fun s =>
      cArr [.int s.plutusVersionTag, .bytes s.code]))]

/-- `TxWitnesses.toCbor`. -/
def toCbor (w : TxWitnesses) : List Nat := w.toCborItem.serialize

def ofScriptItem : CborItem → Option UplcProgram
  | .array (.cons (.int v) (.cons (.bytes code) .nil)) =>
    if 0 ≤ v then some ⟨v.toNat, code⟩ else none
  | _ => none

def ofCborItem : CborItem → Option TxWitnesses
  | .map (.cons (.int 0) (.array sigs) (.cons (.int 4) (.array datums)
      (.cons (.int 5) (.array redeemers) (.cons (.int 6) (.array scripts)
        .nil)))) => do
    let sigs ← sigs.toList.mapM Signature.ofCborItem
    let redeemers ← redeemers.toList.mapM TxRedeemer.ofCborItem
    let scripts ← scripts.toList.mapM ofScriptItem
    pure ⟨sigs, datums.toList, redeemers, scripts⟩
  | _ => none

end TxWitnesses

/-! ## Transaction body -/

/-- Modelled from the spec (§3 **TxBody**), restricted to the fields the
verified checks read: inputs, outputs, fee, certificates, withdrawals,
minted value, script-data hash, collateral, required signers and the
collateral return output. -/
structure TxBody where
  inputs : List TxInput
  outputs : List TxOutput
  fee : Int
  dcerts : List DCert
  withdrawals : List (StakingAddress × Int)
  minted : Assets
  scriptDataHash : Option (List Nat)
  collateral : List TxInput
  signers : List (List Nat)
  collateralReturn : Option TxOutput
deriving DecidableEq

namespace TxBody

/-- `TxBody.countUniqueSigners()` (modelled from the spec: one per signer
not yet signing): the number of distinct key hashes that must sign —
required signers plus key-credential owners of inputs and collateral. -/
def countUniqueSigners (b : TxBody) : Nat :=
  (((b.inputs ++ b.collateral).filterMap
      (fun i => (i.output.map TxOutput.address).bind Address.pubKeyHash)
    ++ b.signers).dedup).length

/-- `TxBody.allScriptHashes` (modelled from the spec: scripts required by
inputs, mints, certificates and withdrawals). -/
def allScriptHashes (b : TxBody) : List (List Nat) :=
  b.inputs.filterMap
      (fun i => (i.output.map TxOutput.address).bind Address.validatorHash)
    ++ b.minted.getPolicies
    ++ b.dcerts.filterMap (fun d =>
        match d with
        | .register c | .deregister c | .delegate c _ =>
          if c.isScript then some c.hash else none)
    ++ b.withdrawals.filterMap (fun w =>
        if w.1.cred.isScript then some w.1.cred.hash else none)

def toCborItem (strict : Bool) (b : TxBody) : CborItem :=
  cMap ([(.int 0, cArr (b.inputs.map TxInput.toCborItem)),
      (.int 1, cArr (b.outputs.map (TxOutput.toCborItem strict))),
      (.int 2, .int b.fee),
      (.int 4, cArr (b.dcerts.map DCert.toCborItem)),
      (.int 5, cMap (b.withdrawals.map fun w =>
        (w.1.toCborItem, .int w.2))),
      (.int 9, b.minted.toCborItem)] ++
    (match b.scriptDataHash with
      | some h => [(.int 11, .bytes h)]
      | none => []) ++
    [(.int 13, cArr (b.collateral.map TxInput.toCborItem)),
      (.int 14, cArr (b.signers.map CborItem.bytes))] ++
    (match b.collateralReturn with
      | some o => [(.int 16, TxOutput.toCborItem strict o)]
      | none => []))

/-- `TxBody.toCbor`. -/
def toCbor (strict : Bool) (b : TxBody) : List Nat :=
  (b.toCborItem strict).serialize

def ofWithdrawalPair : CborItem × CborItem → Option (StakingAddress × Int)
  | (sa, .int n) => (StakingAddress.ofCborItem sa).map fun a => (a, n)
  | _ => none

def ofSignerItem : CborItem → Option (List Nat)
  | .bytes h => some h
  | _ => none

def ofCborItem : CborItem → Option TxBody
  | .map prs => do
    match prs.toList with
    | (.int 0, .array inputs) :: (.int 1, .array outputs) ::
        (.int 2, .int fee) :: (.int 4, .array dcerts) ::
        (.int 5, .map withdrawals) :: (.int 9, minted) :: rest =>
      let inputs ← inputs.toList.mapM TxInput.ofCborItem
      let outputs ← outputs.toList.mapM TxOutput.ofCborItem
      let dcerts ← dcerts.toList.mapM DCert.ofCborItem
      let withdrawals ← withdrawals.toList.mapM ofWithdrawalPair
      let minted ← Assets.ofCborItem minted
      let (scriptDataHash, rest') ←
        match rest with
        | (.int 11, .bytes h) :: r =>
          some ((some h : Option (List Nat)), r)
        | r => some ((none : Option (List Nat)), r)
      match rest' with
      | (.int 13, .array collateral) :: (.int 14, .array signers) :: rest'' =>
        let collateral ← collateral.toList.mapM TxInput.ofCborItem
        let signers ← signers.toList.mapM ofSignerItem
        let collateralReturn ←
          match rest'' with
          | [(.int 16, o)] =>
            (TxOutput.ofCborItem o).map fun oo => (some oo : Option TxOutput)
          | [] => some (none : Option TxOutput)
          | _ => none
        pure ⟨inputs, outputs, fee, dcerts, withdrawals, minted,
          scriptDataHash, collateral, signers, collateralReturn⟩
      | _ => none
    | _ => none
  | _ => none

/-- The body with all resolved outputs of inputs and collateral dropped
(decoding the wire form cannot recover them). -/
def strip (b : TxBody) : TxBody :=
  { b with
    inputs := b.inputs.map TxInput.strip
    collateral := b.collateral.map TxInput.strip }

end TxBody

/-- Modelled from the spec: the off-chain metadata blob, treated as opaque
bytes. -/
structure TxMetadata where
  content : List Nat
deriving DecidableEq

namespace TxMetadata

def toCborItem (m : TxMetadata) : CborItem := .bytes m.content

def toCbor (m : TxMetadata) : List Nat := m.toCborItem.serialize

def ofCborItem : CborItem → Option TxMetadata
  | .bytes bs => some ⟨bs⟩
  | _ => none

end TxMetadata

/-! ## The transaction -/

/-- `Tx` (from the source): body, witnesses, the valid flag and optional
metadata. -/
structure Tx where
  body : TxBody
  witnesses : TxWitnesses
  valid : Bool
  metadata : Option TxMetadata
deriving DecidableEq

namespace Tx

/-- `Tx.isSmart()`. -/
def isSmart (tx : Tx) : Bool := tx.witnesses.isSmart

/-- `Tx.toCbor(forFeeCalculation)` (source lines 282–297): the 4-tuple
`[body, witnesses, true, metadata?]`, or — for fee calculation — the
3-tuple with the valid flag omitted.  Note the source writes
`encodeBool(true)` regardless of the stored `valid` field.  `strict` is
the `config.STRICT_BABBAGE` flag threaded to the output encoder. -/
def toCbor (strict forFeeCalculation : Bool) (tx : Tx) : List Nat :=
  if forFeeCalculation then
    encodeTuple [tx.body.toCbor strict, tx.witnesses.toCbor,
      encodeNullOption (tx.metadata.map TxMetadata.toCbor)]
  else
    encodeTuple [tx.body.toCbor strict, tx.witnesses.toCbor,
      encodeBool true,
      encodeNullOption (tx.metadata.map TxMetadata.toCbor)]

/-- `Tx.fromCbor` (source lines 89–98): decode the 4-tuple
`[body, witnesses, bool, metadata-or-null]`. -/
def fromCbor (bs : List Nat) : Option Tx := do
  match cborParse bs with
  | some (.array (.cons b (.cons w (.cons (.bool v) (.cons m .nil))))) =>
    let body ← TxBody.ofCborItem b
    let witnesses ← TxWitnesses.ofCborItem w
    let metadata ←
      match m with
      | .null => some (none : Option TxMetadata)
      | x => (TxMetadata.ofCborItem x).map fun mm => (some mm : Option TxMetadata)
    pure ⟨body, witnesses, v, metadata⟩
  | _ => none

/-- `Tx.countMissingSignatures()` (truncated at zero as the witness-side
count can only grow up to the unique-signer count). -/
def countMissingSignatures (tx : Tx) : Nat :=
  tx.body.countUniqueSigners - tx.witnesses.countNonDummySignatures

/-- `Tx.calcSize(forFeeCalculation)` (source lines 110–126) as a state
pass: returns the measured size together with the transaction as left
behind by the dummy-signature insertion and removal. -/
def calcSizeState (strict forFeeCalculation : Bool) (tx : Tx) : Nat × Tx :=
  if forFeeCalculation then
    let nDummy := tx.countMissingSignatures
    let tx1 := { tx with witnesses := tx.witnesses.addDummySignatures nDummy }
    let s := (tx1.toCbor strict forFeeCalculation).length
    let tx2 :=
      { tx1 with witnesses := tx1.witnesses.removeDummySignatures nDummy }
    (s, tx2)
  else
    ((tx.toCbor strict forFeeCalculation).length, tx)

/-- The size value returned by `Tx.calcSize`. -/
def calcSize (strict forFeeCalculation : Bool) (tx : Tx) : Nat :=
  (tx.calcSizeState strict forFeeCalculation).1

/-- `Tx.calcMinFee(params)` (source lines 185–195). -/
def calcMinFee (strict : Bool) (params : NetworkParams) (tx : Tx) : Int :=
  let a := (params.txFeeParams).1
  let b := (params.txFeeParams).2
  let sizeFee : Int := (a : Int) + (tx.calcSize strict true : Int) * (b : Int)
  let exFee := tx.witnesses.calcExFee params
  sizeFee + exFee

end Tx

/-! ## Validation engine

Each private `validateX` of the source becomes a function returning
`Except TxErr _`; a thrown `Error` becomes `Except.error` carrying a
structured reason.  `strict` models `config.STRICT_BABBAGE`; `hashFn`
models the external blake2b-224; `vm` models the external script VM. -/

inductive TxErr where
  | feeTooSmall (minFee got : Int)
  | notBalancedLovelace (net : Int)
  | notBalancedAssets
  | tooManyCollateralInputs
  | collateralNotResolved
  | collateralHasAssets
  | notEnoughCollateral
  | unnecessaryCollateral
  | duplicateScripts
  | tooManyScripts
  | missingScript (hash : List Nat)
  | unusedScript (hash : List Nat)
  | inputMissing (index : Nat)
  | inputNotResolved
  | missingValidatorHash
  | missingUplcProgram
  | missingDatum
  | spendMemExceeded (utxoId : TxOutputId) (expected got : Int)
  | spendCpuExceeded (utxoId : TxOutputId) (expected got : Int)
  | mintMemExceeded (policy : List Nat) (expected got : Int)
  | mintCpuExceeded (policy : List Nat) (expected got : Int)
  | missingPolicy
  | unhandledRedeemerKind
  | wrongScriptDataHash
  | missingScriptDataHash
  | unexpectedScriptDataHash
  | emptyRedeemers
deriving DecidableEq

/-- `expectSome` of `@helios-lang/type-utils`: unwrap or fail. -/
def expectSome {α : Type} (o : Option α) (e : TxErr) : Except TxErr α :=
  match o with
  | some a => pure a
  | none => throw e

namespace Tx

/-- `Tx.validateFee` (source lines 502–512): fails exactly when the
computed minimum fee exceeds the declared fee. -/
def validateFee (strict : Bool) (params : NetworkParams) (tx : Tx) :
    Except TxErr Unit :=
  let minFee := tx.calcMinFee strict params
  if minFee > tx.body.fee then .error (.feeTooSmall minFee tx.body.fee)
  else .ok ()

/-- The net value computed by `Tx.validateConservation` (source lines
464–494): inputs, plus deposit refunds of deregistrations, minus fee, plus
the minted value, minus outputs, minus deposits of registrations.
Unresolved inputs contribute zero here; `validateConservation` rejects
them up front. -/
def conservationNetValue (params : NetworkParams) (b : TxBody) : Value :=
  let stakeAddrDeposit : Value := ⟨params.stakeAddressDeposit, Assets.empty⟩
  let v : Value := ⟨0, Assets.empty⟩
  let v := b.inputs.foldl
    (fun prev inp => ((inp.value).getD Value.zero).add prev) v
  let v := b.dcerts.foldl
    (fun prev dcert =>
      if dcert.isDeregister then prev.add stakeAddrDeposit else prev) v
  let v := v.subtract ⟨b.fee, Assets.empty⟩
  let v := v.add ⟨0, b.minted⟩
  let v := b.outputs.foldl (fun prev out => prev.subtract out.value) v
  b.dcerts.foldl
    (fun prev dcert =>
      if dcert.isRegister then prev.subtract stakeAddrDeposit else prev) v

/-- `Tx.validateConservation` (source lines 464–494). -/
def validateConservation (params : NetworkParams) (tx : Tx) :
    Except TxErr Unit := do
  if tx.body.inputs.any fun i => !i.output.isSome then
    throw TxErr.inputNotResolved
  let v := conservationNetValue params tx.body
  if v.lovelace ≠ 0 then throw (.notBalancedLovelace v.lovelace)
  else if !v.assets.isZero then throw .notBalancedAssets
  else pure ()

/-- The collateral-summing loop of `Tx.validateCollateral`: fails on an
unresolved collateral input or one carrying any non-base-unit asset,
otherwise accumulates the value. -/
def collateralSum : List TxInput → Value → Except TxErr Value
  | [], acc => pure acc
  | col :: rest, acc =>
    match col.output with
    | none => throw TxErr.collateralNotResolved
    | some o =>
      if !o.value.assets.isZero then throw TxErr.collateralHasAssets
      else collateralSum rest (acc.add o.value)

/-- `Tx.validateCollateral` (source lines 408–456).  The returned Bool is
the advisory "way too much collateral" warning (a `console.error` in the
source, not a failure).  The source computes the minimum as
`BigInt(Math.ceil(minCollateralPct * Number(fee) / 100))`; this is the
exact ceiling division for the representable range, modelled exactly. -/
def validateCollateral (params : NetworkParams) (tx : Tx) :
    Except TxErr Bool := do
  if tx.body.collateral.length > params.maxCollateralInputs then
    throw .tooManyCollateralInputs
  if tx.isSmart then
    let minCollateralPct := params.minCollateralPct
    let fee := tx.body.fee
    let minCollateral : Int := ((minCollateralPct : Int) * fee + 99) / 100
    let sum ← collateralSum tx.body.collateral Value.zero
    let sum := match tx.body.collateralReturn with
      | some ret => sum.subtract ret.value
      | none => sum
    if sum.lovelace < minCollateral then throw .notEnoughCollateral
    pure (sum.lovelace > minCollateral * 5)
  else
    if tx.body.collateral.length ≠ 0 then throw .unnecessaryCollateral
    pure false

/-- `Tx.validateScriptsPresent` (source lines 732–766). -/
def validateScriptsPresent (hashFn : List Nat → List Nat) (strict : Bool)
    (tx : Tx) : Except TxErr Unit := do
  let allScripts := tx.witnesses.allScripts
  let includedScriptHashes :=
    (allScripts.map fun s => s.hashWith hashFn).dedup
  if allScripts.length ≠ includedScriptHashes.length then
    throw .duplicateScripts
  let requiredScriptHashes := tx.body.allScriptHashes
  if requiredScriptHashes.length < includedScriptHashes.length then
    throw .tooManyScripts
  match requiredScriptHashes.find? fun h => !includedScriptHashes.contains h with
  | some h => throw (.missingScript h)
  | none => pure ()
  if strict then
    match includedScriptHashes.find?
        fun h => !requiredScriptHashes.contains h with
    | some h => throw (.unusedScript h)
    | none => pure ()

end Tx

/-! ## Script context data (spec §6, modelled)

`ScriptPurpose.js` and `TxBody.toTxUplcData` are not in the provided
sources; the script-context construction is modelled from the spec: a
shared data value derived from the body, wrapped together with a
purpose-specific value. -/

/-- Modelled from the spec: the shared transaction data value derived from
the body (plus redeemers, datums). -/
def TxBody.toTxUplcData (b : TxBody) (redeemers : List TxRedeemer)
    (datums : List CborItem) : CborItem :=
  .tag 121 (.array (.ofList
    [cArr (b.inputs.map TxInput.toCborItem),
      cArr (b.outputs.map (TxOutput.toCborItem false)),
      .int b.fee,
      cArr (redeemers.map TxRedeemer.toCborItem),
      cArr datums]))

namespace ScriptPurpose

/-- Modelled from the spec: the purpose value for spending, carrying the
spent output's locator. -/
def spendingData (utxoId : TxOutputId) : CborItem :=
  .tag 122 (.array (.ofList [cArr [.bytes utxoId.txId, .int utxoId.index]]))

/-- Modelled from the spec: the purpose value for minting, carrying the
minting policy. -/
def mintingData (policy : List Nat) : CborItem :=
  .tag 121 (.array (.ofList [.bytes policy]))

/-- Modelled from the spec: the script context wraps the shared tx data
and the purpose value. -/
def toScriptContextUplcData (txData purposeData : CborItem) : CborItem :=
  .tag 121 (.array (.ofList [txData, purposeData]))

end ScriptPurpose

namespace Tx

/-- The per-redeemer body of `Tx.validateRedeemersExBudget` (source lines
608–673): run the external VM (`vm`) on the purpose-specific argument
tuple and compare the measured cost with the declared budget.  The source
only handles the spending and minting purposes; any other redeemer kind
hits the final `throw new Error("unhandled TxRedeemer kind")`. -/
def checkRedeemer (hashFn : List Nat → List Nat)
    (vm : UplcProgram → List CborItem → Cost) (tx : Tx)
    (txData : CborItem) (redeemer : TxRedeemer) : Except TxErr Unit := do
    let redeemerData := redeemer.data
    if redeemer.isSpending then do
      let utxo ← expectSome tx.body.inputs[redeemer.index]?
        (.inputMissing redeemer.index)
      let addr ← expectSome utxo.address .inputNotResolved
      let vh ← expectSome addr.validatorHash .missingValidatorHash
      let script ← expectSome (tx.witnesses.findUplcProgram hashFn vh)
        .missingUplcProgram
      let datumData ← expectSome (utxo.datum.bind TxOutputDatum.data)
        .missingDatum
      let scriptContextData := ScriptPurpose.toScriptContextUplcData txData
        (ScriptPurpose.spendingData utxo.id)
      let args := [datumData, redeemerData, scriptContextData]
      let cost := vm script args
      if cost.mem > redeemer.cost.mem then
        throw (.spendMemExceeded utxo.id redeemer.cost.mem cost.mem)
      if cost.cpu > redeemer.cost.cpu then
        throw (.spendCpuExceeded utxo.id redeemer.cost.cpu cost.cpu)
    else if redeemer.isMinting then do
      let mph ← expectSome tx.body.minted.getPolicies[redeemer.index]?
        .missingPolicy
      let script ← expectSome (tx.witnesses.findUplcProgram hashFn mph)
        .missingUplcProgram
      let scriptContextData := ScriptPurpose.toScriptContextUplcData txData
        (ScriptPurpose.mintingData mph)
      let args := [redeemerData, scriptContextData]
      let cost := vm script args
      if cost.mem > redeemer.cost.mem then
        throw (.mintMemExceeded mph redeemer.cost.mem cost.mem)
      if cost.cpu > redeemer.cost.cpu then
        throw (.mintCpuExceeded mph redeemer.cost.cpu cost.cpu)
    else
      throw .unhandledRedeemerKind

/-- `Tx.validateRedeemersExBudget` (source lines 598–674): build the
shared script-context data once, then run the per-redeemer check over the
redeemer list (fail-fast, as the source's `forEach` with `throw`). -/
def validateRedeemersExBudget (hashFn : List Nat → List Nat)
    (vm : UplcProgram → List CborItem → Cost) (params : NetworkParams)
    (tx : Tx) : Except TxErr Unit :=
  let txData :=
    tx.body.toTxUplcData tx.witnesses.redeemers tx.witnesses.datums
  tx.witnesses.redeemers.forM (tx.checkRedeemer hashFn vm txData)

end Tx

/-- `calcScriptDataHash` (source lines 845–875): hash of the redeemer list
encoding, the datum list encoding when datums exist, and the one-entry
map `{1: sorted cost params}`; fails on an empty redeemer list. -/
def calcScriptDataHash (hashFn : List Nat → List Nat)
    (params : NetworkParams) (datums : List CborItem)
    (redeemers : List TxRedeemer) : Except TxErr (List Nat) := do
  if redeemers.length = 0 then
    throw .emptyRedeemers
  let bytes := encodeDefList (redeemers.map TxRedeemer.toCbor)
  let bytes := if datums.length > 0 then bytes ++ (cArr datums).serialize
    else bytes
  let sortedCostParams := params.sortedV2CostParams
  let bytes := bytes ++
    encodeMap [(encodeInt 1, encodeDefList (sortedCostParams.map encodeInt))]
  pure (hashFn bytes)

namespace Tx

/-- `Tx.validateScriptDataHash` (source lines 699–725). -/
def validateScriptDataHash (hashFn : List Nat → List Nat)
    (params : NetworkParams) (tx : Tx) : Except TxErr Unit := do
  if tx.witnesses.redeemers.length > 0 then
    match tx.body.scriptDataHash with
    | some sdh => do
      let scriptDataHash ← calcScriptDataHash hashFn params
        tx.witnesses.datums tx.witnesses.redeemers
      if scriptDataHash ≠ sdh then throw .wrongScriptDataHash
    | none => throw .missingScriptDataHash
  else
    match tx.body.scriptDataHash with
    | some _ => throw .unexpectedScriptDataHash
    | none => pure ()

end Tx

/-! ## Minimum deposit and lovelace correction -/

namespace TxOutput

/-- `TxOutput.calcDeposit` (source lines 1144–1150): byte-size based
minimum, with the 160-byte overhead. -/
def calcDeposit (strict : Bool) (params : NetworkParams) (o : TxOutput) :
    Int :=
  ((o.toCbor strict).length + 160 : Int) * (params.lovelacePerUTXOByte : Int)

/-- Replace the output's lovelace quantity. -/
def setLovelace (o : TxOutput) (l : Int) : TxOutput :=
  { o with value := { o.value with lovelace := l } }

/-- The loop body of `TxOutput.correctLovelace` (source lines 1160–1172,
without the datum updater), written with a recursion bound; the
convergence theorem shows the bound is generous. -/
def correctLovelaceLoop (strict : Bool) (params : NetworkParams) :
    Nat → TxOutput → TxOutput
  | 0, o => o
  | fuel + 1, o =>
    let minLovelace := o.calcDeposit strict params
    if o.value.lovelace < minLovelace then
      correctLovelaceLoop strict params fuel (o.setLovelace minLovelace)
    else o

/-- `TxOutput.correctLovelace` (no updater). -/
def correctLovelace (strict : Bool) (params : NetworkParams)
    (o : TxOutput) : TxOutput :=
  correctLovelaceLoop strict params 12 o

end TxOutput

deriving instance DecidableEq for Except

/-! ## Shared concrete fixtures (used by witness theorems) -/

/-- A small complete parameter snapshot. -/
def params0 : NetworkParams :=
  ⟨10, 2, 1, 1, 3, 150, 1, 7, 10000, 1000, 1000, [("b", 2), ("a", 1)]⟩

/-- A key-credential address. -/
def addr0 : Address := ⟨true, .pubKey (List.replicate 28 1), none⟩

/-- A script-credential address. -/
def addrS : Address := ⟨true, .validator (List.replicate 28 2), none⟩

/-- An identity stand-in for the injected 28-byte hash function (the hash
is an external collaborator; the claims quantify over it). -/
def hashFn0 : List Nat → List Nat := fun bs => bs.take 28

/-- A VM stand-in reporting zero cost. -/
def vm0 : UplcProgram → List CborItem → Cost := fun _ _ => ⟨0, 0⟩

/-- A simple unresolved-output transaction output. -/
def out0 : TxOutput := ⟨addr0, ⟨90, Assets.empty⟩, none, none⟩

/-- The resolved output of the sample input. -/
def resolved0 : TxOutput := ⟨addr0, ⟨100, Assets.empty⟩, none, none⟩

def input0 : TxInput := ⟨⟨List.replicate 32 3, 0⟩, some resolved0⟩

def body0 : TxBody :=
  ⟨[input0], [out0], 10, [], [], Assets.empty, none, [], [], none⟩

def wit0 : TxWitnesses := ⟨[], [], [], []⟩

/-- A balanced script-free sample transaction: one input of 100, one
output of 90, fee 10. -/
def tx0 : Tx := ⟨body0, wit0, true, none⟩

/-! ## Lovelace-linearity lemmas for the conservation check -/

theorem lovelace_foldl_add {α : Type} (f : α → Value) (l : List α) (v : Value) :
    (l.foldl (fun prev x => (f x).add prev) v).lovelace =
      v.lovelace + (l.map fun x => (f x).lovelace).sum := by
  induction l generalizing v with
  | nil => simp
  | cons x l ih =>
    simp only [List.foldl_cons, List.map_cons, List.sum_cons, ih,
      Value.add_lovelace]
    ring

theorem lovelace_foldl_sub {α : Type} (f : α → Value) (l : List α) (v : Value) :
    (l.foldl (fun prev x => prev.subtract (f x)) v).lovelace =
      v.lovelace - (l.map fun x => (f x).lovelace).sum := by
  induction l generalizing v with
  | nil => simp
  | cons x l ih =>
    simp only [List.foldl_cons, List.map_cons, List.sum_cons, ih,
      Value.subtract_lovelace]
    ring

theorem lovelace_foldl_cond_add {α : Type} (p : α → Bool) (w : Value)
    (l : List α) (v : Value) :
    (l.foldl (fun prev x => if p x then prev.add w else prev) v).lovelace =
      v.lovelace + ((l.filter p).length : Int) * w.lovelace := by
  induction l generalizing v with
  | nil => simp
  | cons x l ih =>
    by_cases hx : p x
    · rw [List.foldl_cons, if_pos hx, ih]
      simp only [List.filter_cons, hx, if_pos, List.length_cons,
        Value.add_lovelace]
      push_cast
      ring
    · simp only [List.foldl_cons, if_neg hx, ih, List.filter_cons, hx]
      simp


theorem lovelace_foldl_cond_sub {α : Type} (p : α → Bool) (w : Value)
    (l : List α) (v : Value) :
    (l.foldl (fun prev x => if p x then prev.subtract w else prev) v).lovelace =
      v.lovelace - ((l.filter p).length : Int) * w.lovelace := by
  induction l generalizing v with
  | nil => simp
  | cons x l ih =>
    by_cases hx : p x
    · rw [List.foldl_cons, if_pos hx, ih]
      simp only [List.filter_cons, hx, if_pos, List.length_cons,
        Value.subtract_lovelace]
      push_cast
      ring
    · simp only [List.foldl_cons, if_neg hx, ih, List.filter_cons, hx]
      simp


/-- The base-unit balance of the conservation net value is the claim's
arithmetic sum: inputs + deregistration refunds − fee − outputs −
registration deposits (the minted value carries no base-unit quantity). -/
theorem conservationNetValue_lovelace (params : NetworkParams) (b : TxBody) :
    (Tx.conservationNetValue params b).lovelace =
      (b.inputs.map fun i => ((i.value).getD Value.zero).lovelace).sum
      + ((b.dcerts.filter DCert.isDeregister).length : Int) *
          params.stakeAddressDeposit
      - b.fee
      - (b.outputs.map fun o => o.value.lovelace).sum
      - ((b.dcerts.filter DCert.isRegister).length : Int) *
          params.stakeAddressDeposit := by
  unfold Tx.conservationNetValue
  rw [lovelace_foldl_cond_sub, lovelace_foldl_sub]
  simp only [Value.add_lovelace, Value.subtract_lovelace]
  rw [lovelace_foldl_cond_add (w := (⟨params.stakeAddressDeposit,
    Assets.empty⟩ : Value))]
  simp only [lovelace_foldl_add]
  simp

theorem sum_map_set {α : Type} (f : α → Int) (l : List α) (i : Nat) (x : α)
    (h : i < l.length) :
    ((l.set i x).map f).sum = (l.map f).sum - f (l.get ⟨i, h⟩) + f x := by
  induction l generalizing i with
  | nil => simp at h
  | cons y l ih =>
    cases i with
    | zero => simp [List.set]; ring
    | succ i =>
      have h' : i < l.length := by simpa using h
      simp only [List.set, List.map_cons, List.sum_cons, List.get_cons_succ]
      rw [ih i h']
      ring

theorem validateConservation_ok_iff (params : NetworkParams) (tx : Tx) :
    Tx.validateConservation params tx = .ok () ↔
      ((tx.body.inputs.any fun i => !i.output.isSome) = false ∧
        (Tx.conservationNetValue params tx.body).lovelace = 0 ∧
        (Tx.conservationNetValue params tx.body).assets.isZero = true) := by
  unfold Tx.validateConservation
  split_ifs with h1
  · simp_all [throw, throwThe, MonadExceptOf.throw, Bind.bind, Except.bind]
  · simp only [throw, throwThe, MonadExceptOf.throw, Bind.bind, Except.bind,
      pure, Except.pure]
    split_ifs with h2 h3 <;> simp_all

/-- **C3**: with every input resolved, the conservation check passes
exactly when inputs + deregistration deposit refunds − fee + minted −
outputs − registration deposits is zero in the base unit (the arithmetic
sum below) and in every asset (`isZero` of the same net value: every
remaining multi-asset quantity is zero); and whenever it passes, changing
any single output's base-unit quantity by any nonzero amount (in
particular by 1) makes it fail. -/
theorem claim_c3_conservation (params : NetworkParams) (tx : Tx)
    (hres : ∀ i ∈ tx.body.inputs, i.output.isSome) :
    (Tx.validateConservation params tx = .ok () ↔
      ((tx.body.inputs.map fun i => ((i.value).getD Value.zero).lovelace).sum
        + ((tx.body.dcerts.filter DCert.isDeregister).length : Int) *
            params.stakeAddressDeposit
        - tx.body.fee
        - (tx.body.outputs.map fun o => o.value.lovelace).sum
        - ((tx.body.dcerts.filter DCert.isRegister).length : Int) *
            params.stakeAddressDeposit = 0
      ∧ (Tx.conservationNetValue params tx.body).assets.isZero = true))
    ∧ (∀ (i : Nat) (hi : i < tx.body.outputs.length) (δ : Int), δ ≠ 0 →
        Tx.validateConservation params tx = .ok () →
        Tx.validateConservation params
          { tx with body := { tx.body with
              outputs := tx.body.outputs.set i
                ((tx.body.outputs.get ⟨i, hi⟩).setLovelace
                  ((tx.body.outputs.get ⟨i, hi⟩).value.lovelace + δ)) } }
          ≠ .ok ()) := by
  have hany : (tx.body.inputs.any fun i => !i.output.isSome) = false := by
    rw [List.any_eq_false]
    intro i hi
    have h := hres i hi
    cases hout : i.output with
    | none => rw [hout] at h; simp at h
    | some o => simp [hout]
  constructor
  · rw [validateConservation_ok_iff, conservationNetValue_lovelace, hany]
    simp
  · intro i hi δ hδ hok hok'
    rw [validateConservation_ok_iff] at hok hok'
    obtain ⟨-, hlov, -⟩ := hok
    obtain ⟨-, hlov', -⟩ := hok'
    rw [conservationNetValue_lovelace] at hlov hlov'
    dsimp only at hlov'
    rw [sum_map_set (fun o => o.value.lovelace) tx.body.outputs i _ hi]
      at hlov'
    dsimp only [TxOutput.setLovelace] at hlov'
    have : δ = 0 := by linarith
    exact hδ this

/-- Witness for C3 at the balanced sample transaction `tx0`: the
hypothesis holds and the conservation check passes with the claimed sum
equal to zero. -/
theorem claim_c3_conservation_witness :
    (∀ i ∈ tx0.body.inputs, i.output.isSome) ∧
      (Tx.validateConservation params0 tx0 = .ok () ↔
        ((tx0.body.inputs.map fun i =>
            ((i.value).getD Value.zero).lovelace).sum
          + ((tx0.body.dcerts.filter DCert.isDeregister).length : Int) *
              params0.stakeAddressDeposit
          - tx0.body.fee
          - (tx0.body.outputs.map fun o => o.value.lovelace).sum
          - ((tx0.body.dcerts.filter DCert.isRegister).length : Int) *
              params0.stakeAddressDeposit = 0
        ∧ (Tx.conservationNetValue params0 tx0.body).assets.isZero = true)) :=
  ⟨by decide, (claim_c3_conservation params0 tx0 (by decide)).1⟩

/-- The sample transaction with the declared fee at exactly the computed
minimum. -/
def txFeeExact : Tx := { tx0 with body := { body0 with fee := 412 } }

/-- The sample transaction with the declared fee one lovelace below the
minimum. -/
def txFeeShort : Tx := { tx0 with body := { body0 with fee := 411 } }

/-- **C2**: the fee check passes exactly when the declared fee is at least
`txFeeFixed + txFeePerByte × size-for-fee-purposes + execution fee`, where
the size for fee purposes is the byte length of the encoding with the
valid-flag omitted and one placeholder signature per missing signer
inserted (the state pass `calcSizeState` removes them again, see C10); a
fee equal to the minimum passes and one lovelace less fails. -/
theorem claim_c2_fee (strict : Bool) (params : NetworkParams) (tx : Tx) :
    (Tx.validateFee strict params tx = .ok () ↔
      tx.body.fee ≥ (params.txFeeParams.1 : Int)
        + (Tx.calcSize strict true tx : Int) * (params.txFeeParams.2 : Int)
        + tx.witnesses.calcExFee params)
    ∧ Tx.calcSize strict true tx =
        (({ tx with witnesses :=
            tx.witnesses.addDummySignatures tx.countMissingSignatures }).toCbor
          strict true).length
    ∧ (tx.body.fee = (params.txFeeParams.1 : Int)
        + (Tx.calcSize strict true tx : Int) * (params.txFeeParams.2 : Int)
        + tx.witnesses.calcExFee params →
        Tx.validateFee strict params tx = .ok ())
    ∧ (tx.body.fee = (params.txFeeParams.1 : Int)
        + (Tx.calcSize strict true tx : Int) * (params.txFeeParams.2 : Int)
        + tx.witnesses.calcExFee params - 1 →
        Tx.validateFee strict params tx ≠ .ok ()) := by
  have hmin : tx.calcMinFee strict params =
      (params.txFeeParams.1 : Int)
        + (Tx.calcSize strict true tx : Int) * (params.txFeeParams.2 : Int)
        + tx.witnesses.calcExFee params := rfl
  have hiff : Tx.validateFee strict params tx = .ok () ↔
      tx.body.fee ≥ tx.calcMinFee strict params := by
    unfold Tx.validateFee
    dsimp only
    split_ifs with h
    · simp only [ge_iff_le]
      constructor
      · intro he
        exact absurd he (by simp)
      · intro hle
        omega
    · simp only [ge_iff_le]
      constructor
      · intro _
        omega
      · intro _
        trivial
  refine ⟨by rw [hiff, hmin], rfl, ?_, ?_⟩
  · intro he
    rw [hiff, hmin]
    omega
  · intro he
    rw [Ne, hiff, hmin]
    omega

set_option maxRecDepth 100000 in
/-- Witness for C2: at the sample parameters, a fee of exactly 412 (the
computed minimum) passes and a fee of 411 fails. -/
theorem claim_c2_fee_witness :
    (txFeeExact.body.fee = (params0.txFeeParams.1 : Int)
        + (Tx.calcSize false true txFeeExact : Int) *
            (params0.txFeeParams.2 : Int)
        + txFeeExact.witnesses.calcExFee params0
      ∧ Tx.validateFee false params0 txFeeExact = .ok ())
    ∧ (txFeeShort.body.fee = (params0.txFeeParams.1 : Int)
        + (Tx.calcSize false true txFeeShort : Int) *
            (params0.txFeeParams.2 : Int)
        + txFeeShort.witnesses.calcExFee params0 - 1
      ∧ Tx.validateFee false params0 txFeeShort ≠ .ok ()) :=
  ⟨⟨by decide, (claim_c2_fee false params0 txFeeExact).2.2.1 (by decide)⟩,
    ⟨by decide, (claim_c2_fee false params0 txFeeShort).2.2.2 (by decide)⟩⟩

/-- **C10**: `calcSize` for fee calculation leaves the transaction
observably unchanged: the state it leaves behind equals the input
transaction, so in particular the signature list and the bytes of any
subsequent `toCbor` are identical to those before the call. -/
theorem claim_c10_calcSize_frame (strict : Bool) (tx : Tx) :
    (tx.calcSizeState strict true).2 = tx
    ∧ (tx.calcSizeState strict true).2.witnesses.signatures =
        tx.witnesses.signatures
    ∧ (∀ strict' forFee : Bool,
        (tx.calcSizeState strict true).2.toCbor strict' forFee =
          tx.toCbor strict' forFee) := by
  have hrestore : ∀ (w : TxWitnesses) (n : Nat),
      (w.addDummySignatures n).removeDummySignatures n = w := by
    intro w n
    unfold TxWitnesses.addDummySignatures TxWitnesses.removeDummySignatures
    cases w with
    | mk sigs datums redeemers scripts =>
      simp only [TxWitnesses.mk.injEq, and_true, true_and]
      have hlen : (sigs ++ List.replicate n Signature.dummy).length - n =
          sigs.length := by simp
      rw [hlen]
      exact List.take_left sigs (List.replicate n Signature.dummy)
  have hmain : (tx.calcSizeState strict true).2 = tx := by
    unfold Tx.calcSizeState
    simp only [if_pos]
    rw [hrestore]
  exact ⟨hmain, by rw [hmain], fun s f => by rw [hmain]⟩

/-! ## C7: collateral -/

theorem collateralSum_ok (l : List TxInput) (acc : Value)
    (hres : ∀ c ∈ l, ∃ o, c.output = some o)
    (hz : ∀ c ∈ l, ∀ o, c.output = some o → o.value.assets.isZero = true) :
    ∃ v, Tx.collateralSum l acc = .ok v ∧
      v.lovelace = acc.lovelace +
        (l.map fun c => ((c.value).map Value.lovelace).getD 0).sum := by
  induction l generalizing acc with
  | nil => exact ⟨acc, rfl, by simp⟩
  | cons c rest ih =>
    obtain ⟨o, ho⟩ := hres c (by simp)
    have hzo := hz c (by simp) o ho
    obtain ⟨v, hv, hl⟩ := ih (acc.add o.value)
      (fun c hc => hres c (by simp [hc]))
      (fun c hc => hz c (by simp [hc]))
    refine ⟨v, ?_, ?_⟩
    · unfold Tx.collateralSum
      rw [ho]
      simp only [hzo, Bool.not_true]
      exact hv
    · rw [hl]
      simp only [List.map_cons, List.sum_cons, Value.add_lovelace,
        TxInput.value, ho, Option.map_some]
      simp
      ring

theorem collateralSum_err (l : List TxInput) (acc : Value)
    (hres : ∀ c ∈ l, ∃ o, c.output = some o)
    (h : ¬(∀ c ∈ l, ∀ o, c.output = some o →
        o.value.assets.isZero = true)) :
    ∃ e, Tx.collateralSum l acc = .error e := by
  induction l generalizing acc with
  | nil => exact absurd (by simp) h
  | cons c rest ih =>
    obtain ⟨o, ho⟩ := hres c (by simp)
    by_cases hzo : o.value.assets.isZero = true
    · have h' : ¬(∀ c ∈ rest, ∀ o, c.output = some o →
          o.value.assets.isZero = true) := by
        intro hall
        exact h (by
          intro c' hc' o' ho'
          rcases List.mem_cons.mp hc' with rfl | hmem
          · rw [ho] at ho'
            cases ho'
            exact hzo
          · exact hall c' hmem o' ho')
      obtain ⟨e, he⟩ := ih (acc.add o.value)
        (fun c hc => hres c (by simp [hc])) h'
      refine ⟨e, ?_⟩
      unfold Tx.collateralSum
      rw [ho]
      simp only [hzo, Bool.not_true]
      exact he
    · refine ⟨.collateralHasAssets, ?_⟩
      unfold Tx.collateralSum
      rw [ho]
      simp [hzo, throw, throwThe, MonadExceptOf.throw]

theorem validateCollateral_smart_eq (params : NetworkParams) (tx : Tx)
    (hsmart : tx.isSmart = true)
    (hcount : tx.body.collateral.length ≤ params.maxCollateralInputs)
    (v : Value)
    (hv : Tx.collateralSum tx.body.collateral Value.zero = .ok v) :
    Tx.validateCollateral params tx =
      (if ((match tx.body.collateralReturn with
            | some ret => v.subtract ret.value
            | none => v) : Value).lovelace <
          ((params.minCollateralPct : Int) * tx.body.fee + 99) / 100 then
        .error .notEnoughCollateral
      else
        .ok (decide
          ((((match tx.body.collateralReturn with
              | some ret => v.subtract ret.value
              | none => v) : Value).lovelace) >
            (((params.minCollateralPct : Int) * tx.body.fee + 99) / 100) * 5))) := by
  unfold Tx.validateCollateral
  rw [if_neg (by omega)]
  simp only [hsmart, if_pos, hv, Bind.bind, Except.bind, pure, Except.pure,
    throw, throwThe, MonadExceptOf.throw]

theorem isOk_error {ε α : Type} (e : ε) :
    (Except.error e : Except ε α).isOk = false := rfl

theorem isOk_ok {ε α : Type} (a : α) :
    (Except.ok a : Except ε α).isOk = true := rfl

/-- **C7**: with scripts invoked (`isSmart`) and resolved collateral
inputs, the collateral check passes exactly when the collateral count is
within the network maximum, every collateral input carries only base-unit
value, and the collateral sum minus any collateral-return value is at
least `ceil(fee × minCollateralPct / 100)`; with no script invoked, zero
collateral inputs pass and any nonzero number fails; and an
over-threshold-but-sufficient amount still passes, returning only the
advisory warning flag. -/
theorem claim_c7_collateral (params : NetworkParams) (tx : Tx) :
    (tx.isSmart = true →
      (∀ c ∈ tx.body.collateral, ∃ o, c.output = some o) →
      ((Tx.validateCollateral params tx).isOk = true ↔
        (tx.body.collateral.length ≤ params.maxCollateralInputs
          ∧ (∀ c ∈ tx.body.collateral, ∀ o, c.output = some o →
              o.value.assets.isZero = true)
          ∧ (tx.body.collateral.map fun c =>
                ((c.value).map Value.lovelace).getD 0).sum
              - ((tx.body.collateralReturn.map fun r =>
                  r.value.lovelace).getD 0)
              ≥ ((params.minCollateralPct : Int) * tx.body.fee + 99) / 100)))
    ∧ (tx.isSmart = false →
        ((Tx.validateCollateral params tx).isOk = true ↔
          tx.body.collateral.length = 0))
    ∧ (tx.isSmart = true →
        (∀ c ∈ tx.body.collateral, ∃ o, c.output = some o) →
        (∀ c ∈ tx.body.collateral, ∀ o, c.output = some o →
            o.value.assets.isZero = true) →
        tx.body.collateral.length ≤ params.maxCollateralInputs →
        (tx.body.collateral.map fun c =>
            ((c.value).map Value.lovelace).getD 0).sum
          - ((tx.body.collateralReturn.map fun r => r.value.lovelace).getD 0)
          ≥ ((params.minCollateralPct : Int) * tx.body.fee + 99) / 100 →
        (tx.body.collateral.map fun c =>
            ((c.value).map Value.lovelace).getD 0).sum
          - ((tx.body.collateralReturn.map fun r => r.value.lovelace).getD 0)
          > (((params.minCollateralPct : Int) * tx.body.fee + 99) / 100) * 5 →
        Tx.validateCollateral params tx = .ok true) := by
  have hslov : ∀ v : Value,
      v.lovelace = (tx.body.collateral.map fun c =>
        ((c.value).map Value.lovelace).getD 0).sum →
      ((match tx.body.collateralReturn with
        | some ret => v.subtract ret.value
        | none => v) : Value).lovelace =
        (tx.body.collateral.map fun c =>
          ((c.value).map Value.lovelace).getD 0).sum
        - ((tx.body.collateralReturn.map fun r =>
            r.value.lovelace).getD 0) := by
    intro v hv
    cases tx.body.collateralReturn <;>
      simp [Value.subtract_lovelace, hv]
  refine ⟨?_, ?_, ?_⟩
  · intro hsmart hres
    by_cases hcount : tx.body.collateral.length ≤ params.maxCollateralInputs
    · by_cases hz : ∀ c ∈ tx.body.collateral, ∀ o, c.output = some o →
          o.value.assets.isZero = true
      · obtain ⟨v, hv, hl⟩ := collateralSum_ok _ Value.zero hres hz
        rw [validateCollateral_smart_eq params tx hsmart hcount v hv]
        have hlz : v.lovelace = (tx.body.collateral.map fun c =>
            ((c.value).map Value.lovelace).getD 0).sum := by
          rw [hl]
          simp [Value.zero]
        rw [hslov v hlz]
        split_ifs with hlt
        · rw [isOk_error]
          constructor
          · intro h
            exact absurd h (by simp)
          · intro ⟨_, _, h3⟩
            omega
        · rw [isOk_ok]
          constructor
          · intro _
            exact ⟨hcount, hz, by omega⟩
          · intro _
            rfl
      · obtain ⟨e, he⟩ := collateralSum_err _ Value.zero hres hz
        have herr : Tx.validateCollateral params tx = .error e := by
          unfold Tx.validateCollateral
          rw [if_neg (by omega)]
          simp [hsmart, he, Bind.bind, Except.bind, pure, Except.pure]
        rw [herr]
        rw [isOk_error]
        constructor
        · intro h
          exact absurd h (by simp)
        · intro ⟨_, h2, _⟩
          exact absurd h2 hz
    · have herr : Tx.validateCollateral params tx =
          .error .tooManyCollateralInputs := by
        unfold Tx.validateCollateral
        rw [if_pos (by omega)]
        simp [Bind.bind, Except.bind, throw, throwThe, MonadExceptOf.throw]
      rw [herr]
      rw [isOk_error]
      constructor
      · intro h
        exact absurd h (by simp)
      · intro ⟨h1, _, _⟩
        exact (hcount h1).elim
  · intro hsmart
    by_cases hcount : tx.body.collateral.length > params.maxCollateralInputs
    · have herr : Tx.validateCollateral params tx =
          .error .tooManyCollateralInputs := by
        unfold Tx.validateCollateral
        rw [if_pos hcount]
        simp [Bind.bind, Except.bind, throw, throwThe, MonadExceptOf.throw]
      rw [herr]
      rw [isOk_error]
      constructor
      · intro h
        exact absurd h (by simp)
      · intro h0
        omega
    · unfold Tx.validateCollateral
      rw [if_neg hcount]
      simp only [hsmart, Bool.false_eq_true, if_neg, Bind.bind, Except.bind]
      by_cases h0 : tx.body.collateral.length = 0
      · simp [h0, pure, Except.pure, Except.isOk, Except.toBool]
      · simp [h0, throw, throwThe, MonadExceptOf.throw, Except.isOk,
          Except.toBool, Bind.bind, Except.bind, pure, Except.pure]
  · intro hsmart hres hz hcount hsuf hover
    obtain ⟨v, hv, hl⟩ := collateralSum_ok _ Value.zero hres hz
    rw [validateCollateral_smart_eq params tx hsmart hcount v hv]
    have hlz : v.lovelace = (tx.body.collateral.map fun c =>
        ((c.value).map Value.lovelace).getD 0).sum := by
      rw [hl]
      simp [Value.zero]
    rw [hslov v hlz]
    rw [if_neg (by omega)]
    congr 1
    exact decide_eq_true hover

/-- Witness for C7 at the script-free sample transaction: not smart with
zero collateral inputs passes. -/
theorem claim_c7_collateral_witness :
    tx0.isSmart = false ∧
      ((Tx.validateCollateral params0 tx0).isOk = true ↔
        tx0.body.collateral.length = 0) :=
  ⟨by decide, (claim_c7_collateral params0 tx0).2.1 (by decide)⟩

/-! ## C8: scripts present -/

/-- A transaction attaching two distinct scripts of which only one is
required (by its single script-locked input); strict mode off. -/
def txC8 : Tx :=
  { tx0 with
    body := { body0 with
      inputs := [⟨⟨List.replicate 32 3, 0⟩,
        some ⟨⟨true, .validator [1, 1], none⟩, ⟨100, Assets.empty⟩, none,
          none⟩⟩] }
    witnesses := { wit0 with scripts := [⟨1, [1]⟩, ⟨1, [2]⟩] } }

/-- Counterexample to **C8** as stated: in `txC8` no attached script is
duplicated, every required script is attached, and strict mode is off —
by the claim the check should pass — yet the source's
`requiredScriptHashes.length < includedScriptHashes.size` guard fires
and the check fails with "too many scripts included". -/
theorem claim_c8_counterexample :
    ((txC8.witnesses.allScripts.map fun s => s.hashWith hashFn0).dedup.length
        = txC8.witnesses.allScripts.length)
    ∧ (∀ h ∈ txC8.body.allScriptHashes,
        h ∈ txC8.witnesses.allScripts.map fun s => s.hashWith hashFn0)
    ∧ Tx.validateScriptsPresent hashFn0 false txC8 =
        .error .tooManyScripts := by
  refine ⟨by decide, by decide, by decide⟩

/-- **C8 (amended)**: the scripts-present check passes exactly when no
attached script is duplicated, the required-script-hash list is at least
as long as the set of attached script hashes, every required script is
attached, and — when strict mode is on — every attached script is
required.  In particular a missing required script or a duplicate always
fails, and an unused attached script fails under strict mode; with
strict off an unused attached script additionally fails whenever the
required-hash list is shorter than the number of distinct attached
scripts (the source's "too many scripts" guard), and passes otherwise. -/
theorem claim_c8_scripts_present (hashFn : List Nat → List Nat)
    (strict : Bool) (tx : Tx) :
    Tx.validateScriptsPresent hashFn strict tx = .ok () ↔
      (tx.witnesses.allScripts.length =
          ((tx.witnesses.allScripts.map fun s => s.hashWith hashFn).dedup).length
        ∧ ((tx.witnesses.allScripts.map fun s => s.hashWith hashFn).dedup).length
            ≤ tx.body.allScriptHashes.length
        ∧ (∀ h ∈ tx.body.allScriptHashes,
            h ∈ (tx.witnesses.allScripts.map fun s => s.hashWith hashFn).dedup)
        ∧ (strict = true →
            ∀ h ∈ (tx.witnesses.allScripts.map fun s => s.hashWith hashFn).dedup,
              h ∈ tx.body.allScriptHashes)) := by
  unfold Tx.validateScriptsPresent
  by_cases hdup : tx.witnesses.allScripts.length ≠
      ((tx.witnesses.allScripts.map fun s => s.hashWith hashFn).dedup).length
  · rw [if_pos hdup]
    simp only [Bind.bind, Except.bind, throw, throwThe, MonadExceptOf.throw]
    constructor
    · intro h
      exact absurd h (by simp)
    · intro ⟨h1, _⟩
      exact absurd h1 hdup
  · rw [if_neg hdup]
    push_neg at hdup
    by_cases hlen : tx.body.allScriptHashes.length <
        ((tx.witnesses.allScripts.map fun s => s.hashWith hashFn).dedup).length
    · rw [if_pos hlen]
      simp only [Bind.bind, Except.bind, throw, throwThe, MonadExceptOf.throw,
        pure, Except.pure]
      constructor
      · intro h
        exact absurd h (by simp)
      · intro ⟨_, h2, _⟩
        omega
    · rw [if_neg hlen]
      cases hfind : tx.body.allScriptHashes.find? fun h =>
          !((tx.witnesses.allScripts.map fun s => s.hashWith hashFn).dedup).contains h with
      | some h =>
        simp only [hfind, Bind.bind, Except.bind, throw, throwThe,
          MonadExceptOf.throw, pure, Except.pure]
        have hmem := List.find?_some hfind
        have hin := List.mem_of_find?_eq_some hfind
        constructor
        · intro hc
          exact absurd hc (by simp)
        · intro ⟨_, _, h3, _⟩
          have := h3 h hin
          simp only [Bool.not_eq_true', ← Bool.not_eq_true] at hmem
          exact absurd (by
            simpa [List.contains, List.elem_eq_mem] using this) hmem
      | none =>
        have hall : ∀ h ∈ tx.body.allScriptHashes,
            h ∈ (tx.witnesses.allScripts.map fun s => s.hashWith hashFn).dedup := by
          intro h hin
          have := List.find?_eq_none.mp hfind h hin
          simpa [List.contains, List.elem_eq_mem] using this
        simp only [hfind, Bind.bind, Except.bind, pure, Except.pure]
        cases strict with
        | false =>
          simp only [Bool.false_eq_true, if_neg]
          constructor
          · intro _
            exact ⟨hdup, by omega, hall, by simp⟩
          · intro _
            rfl
        | true =>
          simp only [if_pos]
          cases hfind2 : ((tx.witnesses.allScripts.map fun s =>
              s.hashWith hashFn).dedup).find? fun h =>
              !tx.body.allScriptHashes.contains h with
          | some h =>
            simp only [hfind2, throw, throwThe, MonadExceptOf.throw]
            have hmem2 := List.find?_some hfind2
            have hin2 := List.mem_of_find?_eq_some hfind2
            constructor
            · intro hc
              exact absurd hc (by simp)
            · intro ⟨_, _, _, h4⟩
              have := h4 trivial h hin2
              simp only [Bool.not_eq_true', ← Bool.not_eq_true] at hmem2
              exact absurd (by
                simpa [List.contains, List.elem_eq_mem] using this) hmem2
          | none =>
            have hall2 : ∀ h ∈ (tx.witnesses.allScripts.map fun s =>
                s.hashWith hashFn).dedup, h ∈ tx.body.allScriptHashes := by
              intro h hin
              have := List.find?_eq_none.mp hfind2 h hin
              simpa [List.contains, List.elem_eq_mem] using this
            simp only [hfind2]
            constructor
            · intro _
              exact ⟨hdup, by omega, hall, fun _ => hall2⟩
            · intro _
              trivial

/-! ## C5: script data hash -/

/-- A sample minting redeemer. -/
def redeemer0 : TxRedeemer := ⟨.minting, 0, .int 1, ⟨0, 0⟩⟩

/-- A transaction with one redeemer and a (deliberately arbitrary)
script-data hash field. -/
def txC5 : Tx :=
  { tx0 with
    body := { body0 with scriptDataHash := some [0] }
    witnesses := { wit0 with redeemers := [redeemer0] } }

/-- **C5**: the script-data hash is the injected hash of: the encoding of
the redeemer list, then (only when datums exist) the encoding of the datum
list, then the one-entry map from key 1 to the sorted cost-model values;
computing it with no redeemers is itself a failure; and the validation
check fails when redeemers are present without the body field, when the
field is present without redeemers, and passes with redeemers exactly when
the field equals the recomputed hash (so differing in any byte fails). -/
theorem claim_c5_script_data_hash (hashFn : List Nat → List Nat)
    (params : NetworkParams) (tx : Tx) :
    (∀ datums, calcScriptDataHash hashFn params datums [] =
      .error .emptyRedeemers)
    ∧ (tx.witnesses.redeemers ≠ [] →
        calcScriptDataHash hashFn params tx.witnesses.datums
            tx.witnesses.redeemers =
          .ok (hashFn
            (encodeDefList (tx.witnesses.redeemers.map TxRedeemer.toCbor)
              ++ (if tx.witnesses.datums ≠ [] then
                    (cArr tx.witnesses.datums).serialize
                  else [])
              ++ encodeMap [(encodeInt 1,
                  encodeDefList (params.sortedV2CostParams.map encodeInt))])))
    ∧ (tx.witnesses.redeemers ≠ [] → tx.body.scriptDataHash = none →
        Tx.validateScriptDataHash hashFn params tx =
          .error .missingScriptDataHash)
    ∧ (∀ sdh, tx.witnesses.redeemers ≠ [] →
        tx.body.scriptDataHash = some sdh →
        (Tx.validateScriptDataHash hashFn params tx = .ok () ↔
          calcScriptDataHash hashFn params tx.witnesses.datums
            tx.witnesses.redeemers = .ok sdh))
    ∧ (tx.witnesses.redeemers = [] → tx.body.scriptDataHash = none →
        Tx.validateScriptDataHash hashFn params tx = .ok ())
    ∧ (∀ sdh, tx.witnesses.redeemers = [] →
        tx.body.scriptDataHash = some sdh →
        Tx.validateScriptDataHash hashFn params tx =
          .error .unexpectedScriptDataHash) := by
  have hcalc : tx.witnesses.redeemers ≠ [] →
      calcScriptDataHash hashFn params tx.witnesses.datums
          tx.witnesses.redeemers =
        .ok (hashFn
          (encodeDefList (tx.witnesses.redeemers.map TxRedeemer.toCbor)
            ++ (if tx.witnesses.datums ≠ [] then
                  (cArr tx.witnesses.datums).serialize
                else [])
            ++ encodeMap [(encodeInt 1,
                encodeDefList (params.sortedV2CostParams.map encodeInt))])) := by
    intro hne
    unfold calcScriptDataHash
    rw [if_neg (by simpa [List.length_eq_zero] using hne)]
    simp only [Bind.bind, Except.bind, pure, Except.pure]
    by_cases hd : tx.witnesses.datums = []
    · simp [hd]
    · have hlen : tx.witnesses.datums.length > 0 := by
        cases h : tx.witnesses.datums with
        | nil => exact absurd h hd
        | cons a l => simp [h]
      rw [if_pos hlen, if_pos hd]
  refine ⟨?_, hcalc, ?_, ?_, ?_, ?_⟩
  · intro datums
    unfold calcScriptDataHash
    simp [throw, throwThe, MonadExceptOf.throw, Bind.bind, Except.bind]
  · intro hne hnone
    unfold Tx.validateScriptDataHash
    rw [if_pos (by simpa [List.length_pos] using hne), hnone]
    rfl
  · intro sdh hne hsome
    unfold Tx.validateScriptDataHash
    rw [if_pos (by simpa [List.length_pos] using hne), hsome]
    rw [hcalc hne]
    simp only [Bind.bind, Except.bind]
    constructor
    · intro h
      by_cases heq : hashFn
          (encodeDefList (tx.witnesses.redeemers.map TxRedeemer.toCbor)
            ++ (if tx.witnesses.datums ≠ [] then
                  (cArr tx.witnesses.datums).serialize
                else [])
            ++ encodeMap [(encodeInt 1,
                encodeDefList (params.sortedV2CostParams.map encodeInt))]) = sdh
      · rw [heq]
      · rw [if_pos heq] at h
        exact absurd h (by simp [throw, throwThe, MonadExceptOf.throw])
    · intro h
      cases h
      rw [if_neg (by simp)]
      rfl
  · intro hnil hnone
    unfold Tx.validateScriptDataHash
    rw [if_neg (by simp [hnil]), hnone]
    rfl
  · intro sdh hnil hsome
    unfold Tx.validateScriptDataHash
    rw [if_neg (by simp [hnil]), hsome]
    rfl

/-- Witness for C5 at a transaction with one redeemer and a hash field:
both hypotheses of the pass-iff part hold concretely. -/
theorem claim_c5_script_data_hash_witness :
    (txC5.witnesses.redeemers ≠ [] ∧ txC5.body.scriptDataHash = some [0])
    ∧ (Tx.validateScriptDataHash hashFn0 params0 txC5 = .ok () ↔
        calcScriptDataHash hashFn0 params0 txC5.witnesses.datums
          txC5.witnesses.redeemers = .ok [0]) :=
  ⟨⟨by decide, by decide⟩,
    (claim_c5_script_data_hash hashFn0 params0 txC5).2.2.2.1 [0]
      (by decide) (by decide)⟩

/-! ## C4: redeemer execution budgets -/

theorem forM_except_ok_iff {α : Type} (f : α → Except TxErr Unit)
    (l : List α) :
    l.forM f = .ok () ↔ ∀ x ∈ l, f x = .ok () := by
  induction l with
  | nil => exact ⟨fun _ => by simp, fun _ => rfl⟩
  | cons x xs ih =>
    show (f x >>= fun _ => xs.forM f) = .ok () ↔ _
    cases hfx : f x with
    | error e =>
      simp [hfx, Bind.bind, Except.bind]
    | ok u =>
      cases u
      simp [hfx, Bind.bind, Except.bind, ih]

/-- A transaction whose only redeemer is a certifying one with an ample
declared budget. -/
def txC4 : Tx :=
  { tx0 with
    witnesses :=
      { wit0 with redeemers := [⟨.certifying, 0, .int 1, ⟨1000, 1000⟩⟩] } }

/-- Counterexample to **C4** as stated: `txC4`'s single redeemer is a
certifying one; the VM (here reporting zero cost, below every declared
budget) is never invoked with the claimed redeemer + script-context tuple
— instead the check fails unconditionally with the source's
"unhandled TxRedeemer kind" error. -/
theorem claim_c4_counterexample :
    (∀ script args, vm0 script args = ⟨0, 0⟩)
    ∧ (∀ r ∈ txC4.witnesses.redeemers,
        (0 : Int) ≤ r.cost.mem ∧ (0 : Int) ≤ r.cost.cpu)
    ∧ Tx.validateRedeemersExBudget hashFn0 vm0 params0 txC4 =
        .error .unhandledRedeemerKind :=
  ⟨fun _ _ => rfl, by decide, by decide⟩

/-- **C4 (amended)**: the budget check passes exactly when every
redeemer's per-redeemer check passes; for a spending redeemer with all
lookups succeeding the VM is invoked on the tuple
`[datum, redeemer, scriptContext]` and the check passes exactly when the
reported memory and cpu costs are at most the declared ones (equality
passes), an excess memory cost failing with an error that carries the
offending input's id; for a minting redeemer the tuple is
`[redeemer, scriptContext]` with the error carrying the policy; a
certifying or rewarding redeemer always fails with the unhandled-kind
error, the VM never being consulted. -/
theorem claim_c4_redeemer_budget (hashFn : List Nat → List Nat)
    (vm : UplcProgram → List CborItem → Cost) (params : NetworkParams)
    (tx : Tx) :
    (Tx.validateRedeemersExBudget hashFn vm params tx = .ok () ↔
      ∀ r ∈ tx.witnesses.redeemers,
        tx.checkRedeemer hashFn vm
          (tx.body.toTxUplcData tx.witnesses.redeemers tx.witnesses.datums)
          r = .ok ())
    ∧ (∀ (r : TxRedeemer) (txData : CborItem),
        (r.kind = .certifying ∨ r.kind = .rewarding) →
        tx.checkRedeemer hashFn vm txData r = .error .unhandledRedeemerKind)
    ∧ (∀ (r : TxRedeemer) (txData : CborItem) (utxo : TxInput)
        (addr : Address) (vh : List Nat) (script : UplcProgram)
        (datumData : CborItem),
        r.kind = .spending →
        tx.body.inputs[r.index]? = some utxo →
        utxo.address = some addr →
        addr.validatorHash = some vh →
        tx.witnesses.findUplcProgram hashFn vh = some script →
        utxo.datum.bind TxOutputDatum.data = some datumData →
        ((tx.checkRedeemer hashFn vm txData r = .ok () ↔
          ((vm script [datumData, r.data,
              ScriptPurpose.toScriptContextUplcData txData
                (ScriptPurpose.spendingData utxo.id)]).mem ≤ r.cost.mem
            ∧ (vm script [datumData, r.data,
                ScriptPurpose.toScriptContextUplcData txData
                  (ScriptPurpose.spendingData utxo.id)]).cpu ≤ r.cost.cpu))
        ∧ ((vm script [datumData, r.data,
              ScriptPurpose.toScriptContextUplcData txData
                (ScriptPurpose.spendingData utxo.id)]).mem > r.cost.mem →
            tx.checkRedeemer hashFn vm txData r =
              .error (.spendMemExceeded utxo.id r.cost.mem
                (vm script [datumData, r.data,
                  ScriptPurpose.toScriptContextUplcData txData
                    (ScriptPurpose.spendingData utxo.id)]).mem))))
    ∧ (∀ (r : TxRedeemer) (txData : CborItem) (mph : List Nat)
        (script : UplcProgram),
        r.kind = .minting →
        tx.body.minted.getPolicies[r.index]? = some mph →
        tx.witnesses.findUplcProgram hashFn mph = some script →
        ((tx.checkRedeemer hashFn vm txData r = .ok () ↔
          ((vm script [r.data,
              ScriptPurpose.toScriptContextUplcData txData
                (ScriptPurpose.mintingData mph)]).mem ≤ r.cost.mem
            ∧ (vm script [r.data,
                ScriptPurpose.toScriptContextUplcData txData
                  (ScriptPurpose.mintingData mph)]).cpu ≤ r.cost.cpu))
        ∧ ((vm script [r.data,
              ScriptPurpose.toScriptContextUplcData txData
                (ScriptPurpose.mintingData mph)]).mem > r.cost.mem →
            tx.checkRedeemer hashFn vm txData r =
              .error (.mintMemExceeded mph r.cost.mem
                (vm script [r.data,
                  ScriptPurpose.toScriptContextUplcData txData
                    (ScriptPurpose.mintingData mph)]).mem)))) := by
  refine ⟨?_, ?_, ?_, ?_⟩
  · exact forM_except_ok_iff _ _
  · intro r txData hk
    unfold Tx.checkRedeemer
    have hs : r.isSpending = false := by
      rcases hk with h | h <;> simp [TxRedeemer.isSpending, h]
    have hm : r.isMinting = false := by
      rcases hk with h | h <;> simp [TxRedeemer.isMinting, h]
    simp [hs, hm, throw, throwThe, MonadExceptOf.throw]
  · intro r txData utxo addr vh script datumData hk hutxo haddr hvh hscript
      hdatum
    have hs : r.isSpending = true := by simp [TxRedeemer.isSpending, hk]
    unfold Tx.checkRedeemer
    simp only [hs, if_pos, expectSome, hutxo, haddr, hvh, hscript, hdatum,
      Bind.bind, Except.bind, pure, Except.pure]
    constructor
    · constructor
      · intro h
        by_cases hmem : (vm script [datumData, r.data,
            ScriptPurpose.toScriptContextUplcData txData
              (ScriptPurpose.spendingData utxo.id)]).mem > r.cost.mem
        · rw [if_pos hmem] at h
          exact absurd h (by simp [throw, throwThe, MonadExceptOf.throw])
        · rw [if_neg hmem] at h
          by_cases hcpu : (vm script [datumData, r.data,
              ScriptPurpose.toScriptContextUplcData txData
                (ScriptPurpose.spendingData utxo.id)]).cpu > r.cost.cpu
          · rw [if_pos hcpu] at h
            exact absurd h (by simp [throw, throwThe, MonadExceptOf.throw])
          · exact ⟨by omega, by omega⟩
      · intro ⟨h1, h2⟩
        have hnm : ¬ (vm script [datumData, r.data,
            ScriptPurpose.toScriptContextUplcData txData
              (ScriptPurpose.spendingData utxo.id)]).mem > r.cost.mem := by omega
        have hnc : ¬ (vm script [datumData, r.data,
            ScriptPurpose.toScriptContextUplcData txData
              (ScriptPurpose.spendingData utxo.id)]).cpu > r.cost.cpu := by omega
        rw [if_neg hnm, if_neg hnc]
    · intro hmem
      rw [if_pos hmem]
  · intro r txData mph script hk hmph hscript
    have hs : r.isSpending = false := by simp [TxRedeemer.isSpending, hk]
    have hm : r.isMinting = true := by simp [TxRedeemer.isMinting, hk]
    unfold Tx.checkRedeemer
    rw [if_neg (by simp [hs])]
    simp only [hm, if_pos, expectSome,
      hmph, hscript, Bind.bind, Except.bind, pure, Except.pure]
    constructor
    · constructor
      · intro h
        by_cases hmem : (vm script [r.data,
            ScriptPurpose.toScriptContextUplcData txData
              (ScriptPurpose.mintingData mph)]).mem > r.cost.mem
        · rw [if_pos hmem] at h
          exact absurd h (by simp [throw, throwThe, MonadExceptOf.throw])
        · rw [if_neg hmem] at h
          by_cases hcpu : (vm script [r.data,
              ScriptPurpose.toScriptContextUplcData txData
                (ScriptPurpose.mintingData mph)]).cpu > r.cost.cpu
          · rw [if_pos hcpu] at h
            exact absurd h (by simp [throw, throwThe, MonadExceptOf.throw])
          · exact ⟨by omega, by omega⟩
      · intro ⟨h1, h2⟩
        have hnm : ¬ (vm script [r.data,
            ScriptPurpose.toScriptContextUplcData txData
              (ScriptPurpose.mintingData mph)]).mem > r.cost.mem := by omega
        have hnc : ¬ (vm script [r.data,
            ScriptPurpose.toScriptContextUplcData txData
              (ScriptPurpose.mintingData mph)]).cpu > r.cost.cpu := by omega
        rw [if_neg hnm, if_neg hnc]
    · intro hmem
      rw [if_pos hmem]

/-- A sample minting redeemer with a declared budget of 10/10. -/
def redeemerM : TxRedeemer := ⟨.minting, 0, .int 1, ⟨10, 10⟩⟩

/-- A transaction minting under policy `[2, 7]` with the matching script
attached. -/
def txC4m : Tx :=
  { tx0 with
    body := { body0 with minted := ⟨[([2, 7], [([110], 5)])]⟩ }
    witnesses := { wit0 with
      redeemers := [redeemerM]
      scripts := [⟨2, [7]⟩] } }

/-- Witness for C4 (amended) at a concrete minting redeemer: all lookup
hypotheses hold and the per-redeemer check is characterized by the VM
cost comparison. -/
theorem claim_c4_redeemer_budget_witness :
    (redeemerM.kind = .minting
      ∧ txC4m.body.minted.getPolicies[redeemerM.index]? = some [2, 7]
      ∧ txC4m.witnesses.findUplcProgram hashFn0 [2, 7] = some ⟨2, [7]⟩)
    ∧ ((txC4m.checkRedeemer hashFn0 vm0 CborItem.null redeemerM = .ok () ↔
        ((vm0 ⟨2, [7]⟩ [redeemerM.data,
            ScriptPurpose.toScriptContextUplcData CborItem.null
              (ScriptPurpose.mintingData [2, 7])]).mem ≤ redeemerM.cost.mem
          ∧ (vm0 ⟨2, [7]⟩ [redeemerM.data,
              ScriptPurpose.toScriptContextUplcData CborItem.null
                (ScriptPurpose.mintingData [2, 7])]).cpu ≤
              redeemerM.cost.cpu))
      ∧ ((vm0 ⟨2, [7]⟩ [redeemerM.data,
            ScriptPurpose.toScriptContextUplcData CborItem.null
              (ScriptPurpose.mintingData [2, 7])]).mem > redeemerM.cost.mem →
          txC4m.checkRedeemer hashFn0 vm0 CborItem.null redeemerM =
            .error (.mintMemExceeded [2, 7] redeemerM.cost.mem
              (vm0 ⟨2, [7]⟩ [redeemerM.data,
                ScriptPurpose.toScriptContextUplcData CborItem.null
                  (ScriptPurpose.mintingData [2, 7])]).mem))) :=
  ⟨⟨rfl, by decide, by decide⟩,
    (claim_c4_redeemer_budget hashFn0 vm0 params0 txC4m).2.2.2 redeemerM
      CborItem.null [2, 7] ⟨2, [7]⟩ rfl (by decide) (by decide)⟩

/-! ## C9: minimum-deposit correction -/

theorem TxOutput.setLovelace_lovelace (o : TxOutput) (l : Int) :
    (o.setLovelace l).value.lovelace = l := rfl

theorem TxOutput.setLovelace_setLovelace (o : TxOutput) (l l' : Int) :
    (o.setLovelace l).setLovelace l' = o.setLovelace l' := rfl

theorem TxOutput.setLovelace_self (o : TxOutput) :
    o.setLovelace o.value.lovelace = o := by
  cases o with
  | mk address value datum refScript => cases value; rfl

theorem serialize_array_eq (xs : CborList) :
    (CborItem.array xs).serialize = encodeHead 4 xs.length ++ xs.serialize :=
  rfl

theorem encodeTuple_length (fields : List (List Nat))
    (h : fields.length < 24) :
    (encodeTuple fields).length = 1 + (fields.map List.length).sum := by
  have hh : (encodeHead 4 fields.length).length = 1 := by
    simp [encodeHead, if_pos h]
  simp only [encodeTuple, List.length_append, List.length_flatten, hh]

theorem encodeObjectIKey_length (entries : List (Nat × List Nat))
    (h : entries.length < 24) :
    (encodeObjectIKey entries).length =
      1 + (entries.map fun e =>
        (encodeInt (Int.ofNat e.1)).length + e.2.length).sum := by
  have hh : (encodeHead 5 entries.length).length = 1 := by
    simp [encodeHead, if_pos h]
  simp only [encodeObjectIKey, List.length_append, List.length_flatten,
    List.map_map, Function.comp_def, hh]

/-- The byte length of a value's encoding is the length of its lovelace
integer encoding plus a constant depending only on the assets. -/
theorem Value.toCbor_lovelace_length (v : Value) :
    ∃ Kv, ∀ l : Int,
      (Value.toCbor ⟨l, v.assets⟩).length = (encodeInt l).length + Kv := by
  by_cases hz : v.assets.isZero
  · refine ⟨0, fun l => ?_⟩
    simp [Value.toCbor, Value.toCborItem, hz, encodeInt]
  · refine ⟨1 + v.assets.toCborItem.serialize.length, fun l => ?_⟩
    have hif : Value.toCborItem ⟨l, v.assets⟩ =
        cArr [.int l, v.assets.toCborItem] := by
      unfold Value.toCborItem
      rw [if_neg hz]
    rw [Value.toCbor, hif, cArr, serialize_array_eq,
      CborList.length_ofList]
    have hh : (encodeHead 4 ([CborItem.int l,
        v.assets.toCborItem].length)).length = 1 := by
      simp [encodeHead]
    simp only [List.length_append, CborList.ofList, CborList.serialize,
      List.length_nil, encodeInt] at hh ⊢
    omega

/-- The byte length of an output's encoding is the length of its lovelace
integer encoding plus a constant depending only on the rest of the
output. -/
theorem TxOutput.toCbor_setLovelace_length (strict : Bool) (o : TxOutput) :
    ∃ K, ∀ l : Int,
      ((o.setLovelace l).toCbor strict).length = (encodeInt l).length + K := by
  obtain ⟨Kv, hKv⟩ := Value.toCbor_lovelace_length o.value
  have hval : ∀ l : Int, (o.setLovelace l).value.toCbor =
      Value.toCbor ⟨l, o.value.assets⟩ := fun l => rfl
  have hce : ∀ l : Int, TxOutput.compactEligible strict (o.setLovelace l) =
      TxOutput.compactEligible strict o := fun l => rfl
  have hds : ∀ l : Int, (o.setLovelace l).datum = o.datum := fun l => rfl
  have hrs : ∀ l : Int, (o.setLovelace l).refScript = o.refScript :=
    fun l => rfl
  have haddr : ∀ l : Int, (o.setLovelace l).address = o.address :=
    fun l => rfl
  by_cases hc : TxOutput.compactEligible strict o
  · cases hd : o.datum with
    | none =>
      refine ⟨1 + o.address.toCbor.length + Kv, fun l => ?_⟩
      unfold TxOutput.toCbor
      rw [hce l, if_pos hc]
      simp only [hds, haddr, hd, hval]
      rw [encodeTuple_length _ (by simp)]
      simp only [List.map_cons, List.map_nil, List.sum_cons, List.sum_nil,
        hKv l]
      omega
    | some d =>
      cases d with
      | hash h =>
        refine ⟨1 + o.address.toCbor.length + Kv +
          (encodeBytes h).length, fun l => ?_⟩
        unfold TxOutput.toCbor
        rw [hce l, if_pos hc]
        simp only [hds, haddr, hd, hval]
        rw [encodeTuple_length _ (by simp)]
        simp only [List.append_assoc, List.cons_append, List.nil_append,
          List.map_cons, List.map_nil, List.sum_cons, List.sum_nil, hKv l]
        omega
      | inline dd =>
        refine ⟨1 + o.address.toCbor.length + Kv, fun l => ?_⟩
        unfold TxOutput.toCbor
        rw [hce l, if_pos hc]
        simp only [hds, haddr, hd, hval]
        rw [encodeTuple_length _ (by simp)]
        simp only [List.map_cons, List.map_nil, List.sum_cons, List.sum_nil,
          hKv l]
        omega
  · cases hd : o.datum with
    | none =>
      cases hr : o.refScript with
      | none =>
        refine ⟨1 + ((encodeInt (Int.ofNat 0)).length +
          o.address.toCbor.length) +
          ((encodeInt (Int.ofNat 1)).length + Kv), fun l => ?_⟩
        unfold TxOutput.toCbor
        rw [hce l, if_neg hc]
        simp only [hds, hrs, haddr, hd, hr, hval]
        rw [encodeObjectIKey_length _ (by simp)]
        simp only [List.append_assoc, List.cons_append, List.nil_append,
          List.map_cons, List.map_nil, List.sum_cons, List.sum_nil, hKv l]
        omega
      | some sc =>
        refine ⟨1 + ((encodeInt (Int.ofNat 0)).length +
          o.address.toCbor.length) +
          ((encodeInt (Int.ofNat 1)).length + Kv) +
          ((encodeInt (Int.ofNat 3)).length + (encodeTag 24 ++ encodeBytes
            (encodeTuple [encodeInt sc.plutusVersionTag,
              sc.toCbor])).length), fun l => ?_⟩
        unfold TxOutput.toCbor
        rw [hce l, if_neg hc]
        simp only [hds, hrs, haddr, hd, hr, hval]
        rw [encodeObjectIKey_length _ (by simp)]
        simp only [List.append_assoc, List.cons_append, List.nil_append,
          List.map_cons, List.map_nil, List.sum_cons, List.sum_nil, hKv l]
        omega
    | some d =>
      cases hr : o.refScript with
      | none =>
        refine ⟨1 + ((encodeInt (Int.ofNat 0)).length +
          o.address.toCbor.length) +
          ((encodeInt (Int.ofNat 1)).length + Kv) +
          ((encodeInt (Int.ofNat 2)).length + d.toCborItem.serialize.length),
          fun l => ?_⟩
        unfold TxOutput.toCbor
        rw [hce l, if_neg hc]
        simp only [hds, hrs, haddr, hd, hr, hval]
        rw [encodeObjectIKey_length _ (by simp)]
        simp only [List.append_assoc, List.cons_append, List.nil_append,
          List.map_cons, List.map_nil, List.sum_cons, List.sum_nil, hKv l]
        omega
      | some sc =>
        refine ⟨1 + ((encodeInt (Int.ofNat 0)).length +
          o.address.toCbor.length) +
          ((encodeInt (Int.ofNat 1)).length + Kv) +
          ((encodeInt (Int.ofNat 2)).length + d.toCborItem.serialize.length) +
          ((encodeInt (Int.ofNat 3)).length + (encodeTag 24 ++ encodeBytes
            (encodeTuple [encodeInt sc.plutusVersionTag,
              sc.toCbor])).length), fun l => ?_⟩
        unfold TxOutput.toCbor
        rw [hce l, if_neg hc]
        simp only [hds, hrs, haddr, hd, hr, hval]
        rw [encodeObjectIKey_length _ (by simp)]
        simp only [List.append_assoc, List.cons_append, List.nil_append,
          List.map_cons, List.map_nil, List.sum_cons, List.sum_nil, hKv l]
        omega

theorem encodeHead_length_le (m n : Nat) : (encodeHead m n).length ≤ 9 := by
  unfold encodeHead
  split_ifs <;> simp [toBE_length]

theorem encodeInt_length_le (l : Int) (h1 : -(2 ^ 64) ≤ l)
    (h2 : l < 2 ^ 64) : (encodeInt l).length ≤ 9 := by
  by_cases ha : 0 ≤ l
  · have heq : encodeInt l = encodeHead 0 l.toNat := by
      unfold encodeInt CborItem.serialize
      rw [if_pos ha, if_pos h2]
    rw [heq]
    exact encodeHead_length_le 0 _
  · have heq : encodeInt l = encodeHead 1 (-1 - l).toNat := by
      unfold encodeInt CborItem.serialize
      rw [if_neg ha, if_pos h1]
    rw [heq]
    exact encodeHead_length_le 1 _

theorem encodeInt_length_pos (l : Int) : 0 < (encodeInt l).length :=
  (CborItem.int l).serialize_length_pos

theorem encodeInt_length_max : (encodeInt (2 ^ 64 - 1)).length = 9 := by
  decide

/-- `calcDeposit` of the output with its lovelace replaced, as an affine
function of the lovelace integer's encoded length. -/
theorem calcDeposit_setLovelace (strict : Bool) (params : NetworkParams)
    (o : TxOutput) :
    ∃ K : Nat, ∀ l : Int,
      (o.setLovelace l).calcDeposit strict params =
        (((encodeInt l).length + K + 160 : Nat) : Int) *
          (params.lovelacePerUTXOByte : Int) := by
  obtain ⟨K, hK⟩ := TxOutput.toCbor_setLovelace_length strict o
  refine ⟨K, fun l => ?_⟩
  unfold TxOutput.calcDeposit
  rw [hK l]
  push_cast
  ring

/-- Once the deposit requirement is met, further loop iterations are the
identity. -/
theorem correctLovelaceLoop_fix (strict : Bool) (params : NetworkParams)
    (o : TxOutput) (h : o.calcDeposit strict params ≤ o.value.lovelace) :
    ∀ fuel, TxOutput.correctLovelaceLoop strict params fuel o = o := by
  intro fuel
  cases fuel with
  | zero => rfl
  | succ f =>
    unfold TxOutput.correctLovelaceLoop
    rw [if_neg (by omega)]

theorem correctLovelaceLoop_post (strict : Bool) (params : NetworkParams)
    (o : TxOutput) (K : Nat)
    (hK : ∀ l : Int, (o.setLovelace l).calcDeposit strict params =
      (((encodeInt l).length + K + 160 : Nat) : Int) *
        (params.lovelacePerUTXOByte : Int))
    (hB : (o.setLovelace (2 ^ 64 - 1)).calcDeposit strict params < 2 ^ 64) :
    ∀ (fuel : Nat) (l : Int), -(2 ^ 64) ≤ l → l < 2 ^ 64 →
      10 - (encodeInt l).length < fuel →
      ((TxOutput.correctLovelaceLoop strict params fuel
          (o.setLovelace l)).calcDeposit strict params ≤
        (TxOutput.correctLovelaceLoop strict params fuel
          (o.setLovelace l)).value.lovelace
      ∧ l ≤ (TxOutput.correctLovelaceLoop strict params fuel
          (o.setLovelace l)).value.lovelace) := by
  intro fuel
  induction fuel with
  | zero =>
    intro l _ _ hf
    omega
  | succ fuel ih =>
    intro l hlo hhi _
    unfold TxOutput.correctLovelaceLoop
    by_cases hlt : (o.setLovelace l).value.lovelace <
        (o.setLovelace l).calcDeposit strict params
    · rw [if_pos hlt]
      rw [TxOutput.setLovelace_lovelace] at hlt
      rw [TxOutput.setLovelace_setLovelace]
      set c : Int := (params.lovelacePerUTXOByte : Int) with hc
      have hc0 : (0 : Int) ≤ c := by positivity
      have hlen9 : (encodeInt l).length ≤ 9 := encodeInt_length_le l hlo hhi
      have hAmono : (o.setLovelace l).calcDeposit strict params ≤
          (o.setLovelace (2 ^ 64 - 1)).calcDeposit strict params := by
        rw [hK l, hK (2 ^ 64 - 1), encodeInt_length_max]
        apply mul_le_mul_of_nonneg_right _ hc0
        exact_mod_cast by omega
      have hAnn : (0 : Int) ≤ (o.setLovelace l).calcDeposit strict params := by
        rw [hK l]
        positivity
      have hAlt : (o.setLovelace l).calcDeposit strict params < 2 ^ 64 :=
        lt_of_le_of_lt hAmono hB
      set l' : Int := (o.setLovelace l).calcDeposit strict params with hl'
      by_cases hcont : l' < (o.setLovelace l').calcDeposit strict params
      · have hlen_lt : (encodeInt l).length < (encodeInt l').length := by
          have h2 : ((((encodeInt l).length + K + 160 : Nat)) : Int) * c <
              ((((encodeInt l').length + K + 160 : Nat)) : Int) * c := by
            rw [← hK l, ← hK l']
            calc (o.setLovelace l).calcDeposit strict params = l' := hl'.symm
              _ < (o.setLovelace l').calcDeposit strict params := hcont
          have h3 : ((encodeInt l).length + K + 160) <
              ((encodeInt l').length + K + 160) := by
            exact_mod_cast lt_of_mul_lt_mul_right h2 hc0
          omega
        have hpost := ih l' (le_trans (by norm_num) hAnn) hAlt (by omega)
        refine ⟨hpost.1, ?_⟩
        have := hpost.2
        omega
      · push_neg at hcont
        rw [correctLovelaceLoop_fix strict params (o.setLovelace l')
          hcont fuel]
        exact ⟨hcont, le_of_lt hlt⟩
    · rw [if_neg hlt]
      have hlt' : TxOutput.calcDeposit strict params (o.setLovelace l) ≤
          l := by
        simpa [TxOutput.setLovelace_lovelace] using hlt
      exact ⟨hlt', le_refl l⟩

/-- **C9**: for an output whose lovelace fits the 8-byte CBOR head range
and a snapshot under which the deposit stays in that range (true of every
real snapshot), `correctLovelace` converges: the returned output meets the
byte-size-based minimum deposit recomputed on itself, the lovelace
quantity never decreases, and re-running the loop with any amount of fuel
leaves the result unchanged (the fixed point is reached within the
generous recursion bound of 12). -/
theorem claim_c9_correct_lovelace (strict : Bool) (params : NetworkParams)
    (o : TxOutput)
    (h1 : -(2 ^ 64) ≤ o.value.lovelace) (h2 : o.value.lovelace < 2 ^ 64)
    (hB : (o.setLovelace (2 ^ 64 - 1)).calcDeposit strict params < 2 ^ 64) :
    ((o.correctLovelace strict params).calcDeposit strict params ≤
        (o.correctLovelace strict params).value.lovelace)
    ∧ o.value.lovelace ≤ (o.correctLovelace strict params).value.lovelace
    ∧ (∀ fuel, TxOutput.correctLovelaceLoop strict params fuel
        (o.correctLovelace strict params) =
          o.correctLovelace strict params) := by
  obtain ⟨K, hK⟩ := calcDeposit_setLovelace strict params o
  have hpost := correctLovelaceLoop_post strict params o K hK hB 12
    o.value.lovelace h1 h2 (by omega)
  rw [TxOutput.setLovelace_self o] at hpost
  exact ⟨hpost.1, hpost.2,
    fun fuel => correctLovelaceLoop_fix strict params _ hpost.1 fuel⟩

/-- Witness for C9 at the sample output and parameters: the range
hypotheses hold and the corrected output is deposit-consistent. -/
theorem claim_c9_correct_lovelace_witness :
    ((-(2 ^ 64) ≤ out0.value.lovelace ∧ out0.value.lovelace < 2 ^ 64
      ∧ (out0.setLovelace (2 ^ 64 - 1)).calcDeposit false params0 < 2 ^ 64))
    ∧ (((out0.correctLovelace false params0).calcDeposit false params0 ≤
        (out0.correctLovelace false params0).value.lovelace)
      ∧ out0.value.lovelace ≤
          (out0.correctLovelace false params0).value.lovelace
      ∧ (∀ fuel, TxOutput.correctLovelaceLoop false params0 fuel
          (out0.correctLovelace false params0) =
            out0.correctLovelace false params0)) :=
  ⟨⟨by decide, by decide, by decide⟩,
    claim_c9_correct_lovelace false params0 out0 (by decide) (by decide)
      (by decide)⟩

/-! ## C6: output encoding shape -/

/-- Shape of an encoding: `some true` when the bytes parse as a single
definite-length array (a tuple), `some false` when they parse as a map,
`none` when they parse as anything else or not at all. -/
def cborShape (bs : List Nat) : Option Bool :=
  match cborParse bs with
  | some (.array _) => some true
  | some (.map _) => some false
  | _ => none

/-- The list of keys of an encoded map, `none` when the bytes are not a
single map. -/
def cborMapKeys (bs : List Nat) : Option (List CborItem) :=
  match cborParse bs with
  | some (.map prs) => some (prs.toList.map Prod.fst)
  | _ => none

/-- The value stored under the integer key `k` of an encoded map. -/
def cborMapEntry (bs : List Nat) (k : Int) : Option CborItem :=
  match cborParse bs with
  | some (.map prs) =>
    (prs.toList.find? (fun p => decide (p.1 = CborItem.int k))).map Prod.snd
  | _ => none

/-- The eligibility flag of `TxOutput.toCbor`, spelled out: the datum is
absent or a hash reference, there is no reference script, and strict
(`config.STRICT_BABBAGE`) mode is off. -/
theorem TxOutput.compactEligible_iff (strict : Bool) (o : TxOutput) :
    TxOutput.compactEligible strict o = true ↔
      ((o.datum = none ∨ ∃ h, o.datum = some (TxOutputDatum.hash h)) ∧
        o.refScript = none ∧ strict = false) := by
  cases hd : o.datum with
  | none =>
    cases hr : o.refScript <;> cases strict <;>
      simp [TxOutput.compactEligible, hd, hr]
  | some d =>
    cases d <;> cases hr : o.refScript <;> cases strict <;>
      simp [TxOutput.compactEligible, hd, hr, TxOutputDatum.isHash]

/-- The item-level mirror of `TxOutput.toCbor` and the byte-level encoder
produce the same bytes. -/
theorem TxOutput.toCbor_eq_serialize (strict : Bool) (o : TxOutput) :
    o.toCbor strict = (o.toCborItem strict).serialize := by
  unfold TxOutput.toCbor TxOutput.toCborItem
  by_cases hce : TxOutput.compactEligible strict o
  · rw [if_pos hce, if_pos hce]
    cases hd : o.datum with
    | none => simp [serialize_cArr, Address.toCbor, Value.toCbor]
    | some d =>
      cases d with
      | hash h =>
        simp [serialize_cArr, Address.toCbor, Value.toCbor, encodeBytes]
      | inline dd =>
        simp [serialize_cArr, Address.toCbor, Value.toCbor]
  · rw [if_neg hce, if_neg hce]
    cases hd : o.datum with
    | none =>
      cases hr : o.refScript with
      | none =>
        norm_num [encodeObjectIKey, encodeMap, Address.toCbor,
          Value.toCbor, encodeInt, CborItem.serialize,
          CborPairs.length_ofPairs, CborPairs.serialize_ofPairs] <;> rfl
      | some sc =>
        norm_num [encodeObjectIKey, encodeMap, Address.toCbor,
          Value.toCbor, encodeInt, TxOutput.refScriptItem, encodeTag,
          encodeBytes, UplcProgram.toCbor, encodeTuple,
          CborItem.serialize, UplcProgram.toCborItem,
          CborPairs.length_ofPairs, CborPairs.serialize_ofPairs,
          CborList.length_ofList, CborList.serialize_ofList] <;> rfl
    | some d =>
      cases hr : o.refScript with
      | none =>
        norm_num [encodeObjectIKey, encodeMap, Address.toCbor,
          Value.toCbor, encodeInt, CborItem.serialize,
          CborPairs.length_ofPairs, CborPairs.serialize_ofPairs] <;> rfl
      | some sc =>
        norm_num [encodeObjectIKey, encodeMap, Address.toCbor,
          Value.toCbor, encodeInt, TxOutput.refScriptItem, encodeTag,
          encodeBytes, UplcProgram.toCbor, encodeTuple,
          CborItem.serialize, UplcProgram.toCborItem,
          CborPairs.length_ofPairs, CborPairs.serialize_ofPairs,
          CborList.length_ofList, CborList.serialize_ofList] <;> rfl

/-- **C6.** For every transaction output, `TxOutput.toCbor` produces the
compact tuple form exactly when the datum is absent or a hash reference,
no reference script is present, and strict mode is off; in every other
case it produces the integer-keyed map form with keys 0–3 (2 and 3 present
exactly when the datum and the reference script are), where the reference
script entry is CBOR tag 24 wrapping the bytes of the tuple
`(script-version integer, script bytes)`. -/
theorem claim_c6_output_encoding (strict : Bool) (o : TxOutput)
    (hwf : (TxOutput.toCborItem strict o).wf = true) :
    (cborShape (TxOutput.toCbor strict o) = some true ↔
      ((o.datum = none ∨ ∃ h, o.datum = some (TxOutputDatum.hash h)) ∧
        o.refScript = none ∧ strict = false)) ∧
    (¬ ((o.datum = none ∨ ∃ h, o.datum = some (TxOutputDatum.hash h)) ∧
          o.refScript = none ∧ strict = false) →
      cborMapKeys (TxOutput.toCbor strict o) =
        some ([CborItem.int 0, CborItem.int 1] ++
          (match o.datum with
            | some _ => [CborItem.int 2]
            | none => []) ++
          (match o.refScript with
            | some _ => [CborItem.int 3]
            | none => []))) ∧
    (∀ s, o.refScript = some s →
      cborMapEntry (TxOutput.toCbor strict o) 3 =
        some (CborItem.tag 24 (CborItem.bytes
          (encodeTuple [encodeInt (Int.ofNat s.plutusVersionTag),
            encodeBytes s.code])))) := by
  have hparse : cborParse (TxOutput.toCbor strict o) =
      some (TxOutput.toCborItem strict o) := by
    rw [TxOutput.toCbor_eq_serialize]
    exact cborParse_serialize _ hwf
  by_cases hce : TxOutput.compactEligible strict o = true
  · have hcond := (TxOutput.compactEligible_iff strict o).mp hce
    have harr : ∃ xs, TxOutput.toCborItem strict o = cArr xs := by
      unfold TxOutput.toCborItem
      rw [if_pos hce]
      exact ⟨_, rfl⟩
    obtain ⟨xs, hxs⟩ := harr
    obtain ⟨hd1, hrn, hs⟩ := hcond
    subst hs
    refine ⟨?_, ?_, ?_⟩
    · exact iff_of_true (by simp [cborShape, hparse, hxs, cArr])
        ⟨hd1, hrn, rfl⟩
    · intro habs
      exact absurd ⟨hd1, hrn, rfl⟩ habs
    · intro sc hr
      exact absurd hrn (by simp [hr])
  · have hncond : ¬ ((o.datum = none ∨
          ∃ h, o.datum = some (TxOutputDatum.hash h)) ∧
        o.refScript = none ∧ strict = false) :=
      fun hc => hce ((TxOutput.compactEligible_iff strict o).mpr hc)
    have hmap : TxOutput.toCborItem strict o =
        cMap ([(.int 0, o.address.toCborItem),
            (.int 1, o.value.toCborItem)] ++
          (match o.datum with
            | some d => [(.int 2, d.toCborItem)]
            | none => []) ++
          (match o.refScript with
            | some sc => [(.int 3, TxOutput.refScriptItem sc)]
            | none => [])) := by
      unfold TxOutput.toCborItem
      rw [if_neg hce]
    refine ⟨?_, ?_, ?_⟩
    · simp only [cborShape, hparse, hmap, cMap]
      simp [hncond]
    · intro _
      unfold cborMapKeys
      rw [hparse, hmap]
      simp only [cMap, CborPairs.toList_ofPairs, List.map_append]
      cases hd : o.datum <;> cases hr : o.refScript <;> simp
    · intro sc hr
      unfold cborMapEntry
      rw [hparse, hmap, hr]
      cases hd : o.datum <;>
        simp [cMap, CborPairs.toList_ofPairs, List.find?,
          TxOutput.refScriptItem, serialize_cArr, encodeInt, encodeBytes]

/-- A fixture output carrying a datum hash and a reference script, so
the map form with keys 0–3 is exercised. -/
def outC6 : TxOutput :=
  ⟨addr0, ⟨5, Assets.empty⟩, some (.hash (List.replicate 32 7)),
    some ⟨2, [1, 2, 3]⟩⟩

theorem claim_c6_output_encoding_witness :
    (TxOutput.toCborItem true outC6).wf = true ∧
    ((cborShape (TxOutput.toCbor true outC6) = some true ↔
      ((outC6.datum = none ∨
          ∃ h, outC6.datum = some (TxOutputDatum.hash h)) ∧
        outC6.refScript = none ∧ true = false)) ∧
    (¬ ((outC6.datum = none ∨
          ∃ h, outC6.datum = some (TxOutputDatum.hash h)) ∧
          outC6.refScript = none ∧ true = false) →
      cborMapKeys (TxOutput.toCbor true outC6) =
        some ([CborItem.int 0, CborItem.int 1] ++
          (match outC6.datum with
            | some _ => [CborItem.int 2]
            | none => []) ++
          (match outC6.refScript with
            | some _ => [CborItem.int 3]
            | none => []))) ∧
    (∀ s, outC6.refScript = some s →
      cborMapEntry (TxOutput.toCbor true outC6) 3 =
        some (CborItem.tag 24 (CborItem.bytes
          (encodeTuple [encodeInt (Int.ofNat s.plutusVersionTag),
            encodeBytes s.code]))))) :=
  ⟨by decide, claim_c6_output_encoding true outC6 (by decide)⟩

/-! ## C1: encode/decode round trip -/

/-- `mapM` over a mapped list collapses when the decoder inverts the
encoder element-wise. -/
theorem mapM_of_inverse {α β : Type} (f : β → Option α) (g : α → β)
    (l : List α) (h : ∀ x ∈ l, f (g x) = some x) :
    (l.map g).mapM f = some l := by
  induction l with
  | nil => rfl
  | cons x xs ih =>
    have hx := h x (List.mem_cons_self x xs)
    have hxs := ih fun y hy => h y (List.mem_cons_of_mem x hy)
    rw [List.map_cons, List.mapM_cons, hx, hxs]
    rfl

theorem Signature.decode_encode_signature (s : Signature) :
    Signature.ofCborItem s.toCborItem = some s := rfl

theorem TxInput.decode_encode_input (i : TxInput) :
    TxInput.ofCborItem i.toCborItem = some i.strip := by
  simp [TxInput.ofCborItem, TxInput.toCborItem, cArr, CborList.ofList,
    TxInput.strip]

theorem StakingAddress.decode_encode_stakingAddress (sa : StakingAddress) :
    StakingAddress.ofCborItem sa.toCborItem = some sa := by
  obtain ⟨t, ⟨sc, h⟩⟩ := sa
  cases t <;> cases sc <;>
    simp [StakingAddress.ofCborItem, StakingAddress.toCborItem,
      StakingAddress.toRawBytes]

theorem DCert.ofCredItem_credItem (c : StakingCredential) :
    DCert.ofCredItem (DCert.credItem c) = some c := by
  obtain ⟨sc, h⟩ := c
  cases sc <;> simp [DCert.ofCredItem, DCert.credItem, cArr, CborList.ofList]

theorem DCert.decode_encode_dcert (d : DCert) :
    DCert.ofCborItem d.toCborItem = some d := by
  cases d <;>
    simp [DCert.ofCborItem, DCert.toCborItem, cArr, CborList.ofList,
      DCert.ofCredItem_credItem]

theorem TxRedeemer.decode_encode_redeemer (r : TxRedeemer) :
    TxRedeemer.ofCborItem r.toCborItem = some r := by
  obtain ⟨k, i, d, ⟨mem, cpu⟩⟩ := r
  cases k <;>
    simp [TxRedeemer.ofCborItem, TxRedeemer.toCborItem, TxRedeemer.kindTag,
      cArr, CborList.ofList]

theorem TxMetadata.decode_encode_metadata (m : TxMetadata) :
    TxMetadata.ofCborItem m.toCborItem = some m := rfl

theorem Assets.ofQtyPair_pair (e : List Nat × Int) :
    Assets.ofQtyPair (CborItem.bytes e.1, CborItem.int e.2) = some e := rfl

theorem Assets.ofGroupPair_pair (g : List Nat × List (List Nat × Int)) :
    Assets.ofGroupPair (CborItem.bytes g.1,
      cMap (g.2.map fun e => (CborItem.bytes e.1, CborItem.int e.2))) =
      some g := by
  obtain ⟨p, ns⟩ := g
  simp only [Assets.ofGroupPair, cMap, CborPairs.toList_ofPairs]
  rw [mapM_of_inverse Assets.ofQtyPair _ ns fun e _ => Assets.ofQtyPair_pair e]
  rfl

theorem Assets.decode_encode_assets (a : Assets) :
    Assets.ofCborItem a.toCborItem = some a := by
  obtain ⟨groups⟩ := a
  simp only [Assets.toCborItem, cMap, Assets.ofCborItem,
    CborPairs.toList_ofPairs]
  have hm := mapM_of_inverse Assets.ofGroupPair
    (fun g => (CborItem.bytes g.1,
      CborItem.map (CborPairs.ofList
        (g.2.map fun e => (CborItem.bytes e.1, CborItem.int e.2)))))
    groups (fun g _ => by simpa [cMap] using Assets.ofGroupPair_pair g)
  rw [hm]
  rfl

/-- Normal form required for the bare-integer value encoding to invert:
a value whose ledger sums to zero stores no groups at all. -/
def Value.wfB (v : Value) : Bool :=
  !v.assets.isZero || v.assets.groups.isEmpty

theorem Value.decode_encode_value (v : Value) (hwf : v.wfB = true) :
    Value.ofCborItem v.toCborItem = some v := by
  obtain ⟨l, a⟩ := v
  simp only [Value.wfB, Bool.or_eq_true, Bool.not_eq_true'] at hwf
  unfold Value.toCborItem
  by_cases hz : Assets.isZero a = true
  · rw [if_pos hz]
    have : a = Assets.empty := by
      rcases hwf with hwf | hwf
      · exact absurd hz (by simp [hwf])
      · obtain ⟨g⟩ := a
        simp only [List.isEmpty_iff] at hwf
        simp [Assets.empty, hwf]
    simp [Value.ofCborItem, this]
  · rw [if_neg hz]
    simp [Value.ofCborItem, cArr, CborList.ofList, Assets.decode_encode_assets]

/-- Round-trip condition for a datum: an inline data value must itself be
well-formed CBOR. -/
def TxOutputDatum.wfB : TxOutputDatum → Bool
  | .hash _ => true
  | .inline d => d.wf

theorem TxOutputDatum.decode_encode_datum (d : TxOutputDatum)
    (hwf : d.wfB = true) :
    TxOutputDatum.ofCborItem d.toCborItem = some d := by
  cases d with
  | hash h => rfl
  | inline dd =>
    have hp : cborParse dd.serialize = some dd := cborParse_serialize dd hwf
    simp [TxOutputDatum.ofCborItem, TxOutputDatum.toCborItem, cArr,
      CborList.ofList, hp]

/-- Round-trip condition for a reference script: the version tag is the
Plutus V1/V2 tag and the wrapped tuple is well-formed CBOR. -/
def UplcProgram.wfRef (sc : UplcProgram) : Bool :=
  (decide (sc.plutusVersionTag = 1) || decide (sc.plutusVersionTag = 2)) &&
    (cArr [.int (Int.ofNat sc.plutusVersionTag), .bytes sc.code]).wf

theorem TxOutput.ofRefScriptBytes_refScriptItem (sc : UplcProgram)
    (hwf : sc.wfRef = true) :
    TxOutput.ofRefScriptBytes
        (cArr [.int (Int.ofNat sc.plutusVersionTag),
          .bytes sc.code]).serialize =
      some sc := by
  simp only [UplcProgram.wfRef, Bool.and_eq_true, Bool.or_eq_true,
    decide_eq_true_eq] at hwf
  obtain ⟨hv, hwf⟩ := hwf
  obtain ⟨v, code⟩ := sc
  simp only at hv hwf
  rcases hv with hv | hv <;> subst hv
  · have hwf1 : (CborItem.array (CborList.cons (CborItem.int 1)
        (CborList.cons (CborItem.bytes code) CborList.nil))).wf = true := hwf
    have hp := cborParse_serialize _ hwf1
    show TxOutput.ofRefScriptBytes (CborItem.array
        (CborList.cons (CborItem.int 1)
          (CborList.cons (CborItem.bytes code) CborList.nil))).serialize =
      some (⟨1, code⟩ : UplcProgram)
    simp [TxOutput.ofRefScriptBytes, hp]
  · have hwf2 : (CborItem.array (CborList.cons (CborItem.int 2)
        (CborList.cons (CborItem.bytes code) CborList.nil))).wf = true := hwf
    have hp := cborParse_serialize _ hwf2
    show TxOutput.ofRefScriptBytes (CborItem.array
        (CborList.cons (CborItem.int 2)
          (CborList.cons (CborItem.bytes code) CborList.nil))).serialize =
      some (⟨2, code⟩ : UplcProgram)
    simp [TxOutput.ofRefScriptBytes, hp]

theorem Address.decode_encode_address (a : Address) (hwf : a.wfB = true) :
    Address.ofCborItem a.toCborItem = some a := by
  obtain ⟨t, sp, st⟩ := a
  simp only [Address.wfB, Bool.and_eq_true, decide_eq_true_eq] at hwf
  obtain ⟨h28, hst⟩ := hwf
  rcases st with _ | c
  · cases t <;> cases sp <;>
      simp_all [Address.ofCborItem, Address.toCborItem, Address.toRawBytes,
        Address.ofRawBytes, Address.header, Credential.isScript,
        Credential.hash, List.take_of_length_le, le_of_eq, List.drop_eq_nil_iff]
  · cases t <;> cases sp <;> cases c <;>
      simp_all [Address.ofCborItem, Address.toCborItem, Address.toRawBytes,
        Address.ofRawBytes, Address.header, Credential.isScript,
        Credential.hash, take_append_of_length, drop_append_of_length]

/-- `mapM` over a mapped list, where the decoder inverts the encoder up to
a projection `h` (dropping data the wire form does not carry). -/
theorem mapM_of_inverse' {α β γ : Type} (f : β → Option γ) (g : α → β)
    (h : α → γ) (l : List α) (hx : ∀ x ∈ l, f (g x) = some (h x)) :
    (l.map g).mapM f = some (l.map h) := by
  induction l with
  | nil => rfl
  | cons x xs ih =>
    have h1 := hx x (List.mem_cons_self x xs)
    have h2 := ih fun y hy => hx y (List.mem_cons_of_mem x hy)
    rw [List.map_cons, List.mapM_cons, h1, h2]
    rfl

/-- Round-trip condition for an output: address hashes 28 bytes long, the
value in zero-normal form, inline datum well-formed, reference script
version V1/V2 with well-formed wrapping. -/
def TxOutput.wfB (o : TxOutput) : Bool :=
  o.address.wfB && o.value.wfB &&
    (match o.datum with
      | none => true
      | some d => d.wfB) &&
    (match o.refScript with
      | none => true
      | some sc => sc.wfRef)

theorem TxOutput.ofCborItem_cMapRef (addr : Address) (val : Value)
    (sc : UplcProgram) (rbs : List Nat)
    (haddr : Address.ofCborItem addr.toCborItem = some addr)
    (hval : Value.ofCborItem val.toCborItem = some val)
    (hrs : TxOutput.ofRefScriptBytes rbs = some sc) :
    TxOutput.ofCborItem
        (cMap [(.int 0, addr.toCborItem), (.int 1, val.toCborItem),
          (.int 3, .tag 24 (.bytes rbs))]) =
      some ⟨addr, val, none, some sc⟩ := by
  simp [TxOutput.ofCborItem, cMap, CborPairs.ofList, CborPairs.toList,
    haddr, hval, hrs]

theorem TxOutput.ofCborItem_cMapDatumRef (addr : Address) (val : Value)
    (d : TxOutputDatum) (sc : UplcProgram) (rbs : List Nat)
    (haddr : Address.ofCborItem addr.toCborItem = some addr)
    (hval : Value.ofCborItem val.toCborItem = some val)
    (hdat : TxOutputDatum.ofCborItem d.toCborItem = some d)
    (hrs : TxOutput.ofRefScriptBytes rbs = some sc) :
    TxOutput.ofCborItem
        (cMap [(.int 0, addr.toCborItem), (.int 1, val.toCborItem),
          (.int 2, d.toCborItem), (.int 3, .tag 24 (.bytes rbs))]) =
      some ⟨addr, val, some d, some sc⟩ := by
  simp [TxOutput.ofCborItem, cMap, CborPairs.ofList, CborPairs.toList,
    haddr, hval, hdat, hrs]

theorem TxOutput.decode_encode_output (strict : Bool) (o : TxOutput)
    (hwf : o.wfB = true) :
    TxOutput.ofCborItem (TxOutput.toCborItem strict o) = some o := by
  obtain ⟨addr, val, datum, refScript⟩ := o
  simp only [TxOutput.wfB, Bool.and_eq_true] at hwf
  obtain ⟨⟨⟨ha, hv⟩, hd⟩, hr⟩ := hwf
  have haddr := Address.decode_encode_address addr ha
  have hval := Value.decode_encode_value val hv
  unfold TxOutput.toCborItem
  by_cases hce :
      TxOutput.compactEligible strict ⟨addr, val, datum, refScript⟩ = true
  · rw [if_pos hce]
    have hcond := (TxOutput.compactEligible_iff _ _).mp hce
    obtain ⟨hd1, hrn, hs⟩ := hcond
    simp only at hd1 hrn
    subst hrn
    rcases hd1 with hd1 | ⟨h, hd1⟩ <;> subst hd1 <;>
      simp [TxOutput.ofCborItem, cArr, CborList.ofList, haddr, hval]
  · rw [if_neg hce]
    cases datum with
    | none =>
      cases refScript with
      | none =>
        simp [TxOutput.ofCborItem, cMap, CborPairs.ofList,
          CborPairs.toList, haddr, hval]
      | some sc =>
        exact TxOutput.ofCborItem_cMapRef addr val sc _ haddr hval
          (TxOutput.ofRefScriptBytes_refScriptItem sc (by simpa using hr))
    | some d =>
      have hdat := TxOutputDatum.decode_encode_datum d (by simpa using hd)
      cases refScript with
      | none =>
        simp [TxOutput.ofCborItem, cMap, CborPairs.ofList, CborPairs.toList,
          haddr, hval, hdat]
      | some sc =>
        exact TxOutput.ofCborItem_cMapDatumRef addr val d sc _ haddr hval
          hdat
          (TxOutput.ofRefScriptBytes_refScriptItem sc (by simpa using hr))

theorem TxWitnesses.ofScriptItem_item (sc : UplcProgram) :
    TxWitnesses.ofScriptItem
      (cArr [.int (Int.ofNat sc.plutusVersionTag), .bytes sc.code]) =
      some sc := by
  simp [TxWitnesses.ofScriptItem, cArr, CborList.ofList]

theorem TxWitnesses.decode_encode_witnesses (w : TxWitnesses) :
    TxWitnesses.ofCborItem w.toCborItem = some w := by
  obtain ⟨sigs, datums, redeemers, scripts⟩ := w
  have hs := mapM_of_inverse Signature.ofCborItem Signature.toCborItem sigs
    fun x _ => Signature.decode_encode_signature x
  have hrd := mapM_of_inverse TxRedeemer.ofCborItem TxRedeemer.toCborItem
    redeemers fun x _ => TxRedeemer.decode_encode_redeemer x
  have hsc := mapM_of_inverse TxWitnesses.ofScriptItem
    (fun sc => cArr [.int (Int.ofNat sc.plutusVersionTag), .bytes sc.code])
    scripts fun x _ => TxWitnesses.ofScriptItem_item x
  have hs2 : List.mapM.loop Signature.ofCborItem
      (sigs.map Signature.toCborItem) [] = some sigs := hs
  have hrd2 : List.mapM.loop TxRedeemer.ofCborItem
      (redeemers.map TxRedeemer.toCborItem) [] = some redeemers := hrd
  have hsc2 : List.mapM.loop TxWitnesses.ofScriptItem
      (scripts.map fun sc => CborItem.array
        (CborList.ofList [CborItem.int ↑sc.plutusVersionTag,
          CborItem.bytes sc.code])) [] = some scripts := hsc
  simp [TxWitnesses.ofCborItem, TxWitnesses.toCborItem, cMap, cArr,
    CborPairs.ofList, CborList.toList_ofList, hs, hrd, hsc, hs2, hrd2, hsc2]

/-- Round-trip condition for a body: all outputs (including the collateral
return) satisfy the output condition. -/
def TxBody.wfB (b : TxBody) : Bool :=
  b.outputs.all TxOutput.wfB &&
    (match b.collateralReturn with
      | none => true
      | some o => o.wfB)

theorem TxBody.ofWithdrawalPair_pair (w : StakingAddress × Int) :
    TxBody.ofWithdrawalPair (w.1.toCborItem, .int w.2) = some w := by
  obtain ⟨sa, n⟩ := w
  simp [TxBody.ofWithdrawalPair, StakingAddress.decode_encode_stakingAddress]

theorem TxBody.decode_encode_body (strict : Bool) (b : TxBody)
    (hwf : b.wfB = true) :
    TxBody.ofCborItem (b.toCborItem strict) = some b.strip := by
  obtain ⟨inputs, outputs, fee, dcerts, withdrawals, minted, sdh,
    collateral, signers, colRet⟩ := b
  simp only [TxBody.wfB, Bool.and_eq_true, List.all_eq_true] at hwf
  obtain ⟨hout, hcr⟩ := hwf
  have hin := mapM_of_inverse' TxInput.ofCborItem TxInput.toCborItem
    TxInput.strip inputs fun i _ => TxInput.decode_encode_input i
  have hcol := mapM_of_inverse' TxInput.ofCborItem TxInput.toCborItem
    TxInput.strip collateral fun i _ => TxInput.decode_encode_input i
  have houts := mapM_of_inverse TxOutput.ofCborItem
    (TxOutput.toCborItem strict) outputs fun o ho =>
      TxOutput.decode_encode_output strict o (hout o ho)
  have hdc := mapM_of_inverse DCert.ofCborItem DCert.toCborItem dcerts
    fun d _ => DCert.decode_encode_dcert d
  have hwd := mapM_of_inverse TxBody.ofWithdrawalPair
    (fun w => (w.1.toCborItem, CborItem.int w.2)) withdrawals
    fun w _ => TxBody.ofWithdrawalPair_pair w
  have hsg := mapM_of_inverse TxBody.ofSignerItem CborItem.bytes signers
    fun h _ => rfl
  have hmint := Assets.decode_encode_assets minted
  have hin2 : List.mapM.loop TxInput.ofCborItem
      (inputs.map TxInput.toCborItem) [] =
      some (inputs.map TxInput.strip) := hin
  have hcol2 : List.mapM.loop TxInput.ofCborItem
      (collateral.map TxInput.toCborItem) [] =
      some (collateral.map TxInput.strip) := hcol
  have houts2 : List.mapM.loop TxOutput.ofCborItem
      (outputs.map (TxOutput.toCborItem strict)) [] = some outputs := houts
  have hdc2 : List.mapM.loop DCert.ofCborItem
      (dcerts.map DCert.toCborItem) [] = some dcerts := hdc
  have hwd2 : List.mapM.loop TxBody.ofWithdrawalPair
      (withdrawals.map fun w => (w.1.toCborItem, CborItem.int w.2)) [] =
      some withdrawals := hwd
  have hsg2 : List.mapM.loop TxBody.ofSignerItem
      (signers.map CborItem.bytes) [] = some signers := hsg
  cases sdh with
  | none =>
    cases colRet with
    | none =>
      simp [TxBody.ofCborItem, TxBody.toCborItem, cMap, cArr,
        CborPairs.ofList, CborPairs.toList, CborPairs.toList_ofPairs,
        CborList.toList_ofList, hin, hcol, houts, hdc, hwd, hsg, hmint,
        hin2, hcol2, houts2, hdc2, hwd2, hsg2, TxBody.strip]
    | some o =>
      have hcro := TxOutput.decode_encode_output strict o (by simpa using hcr)
      simp [TxBody.ofCborItem, TxBody.toCborItem, cMap, cArr,
        CborPairs.ofList, CborPairs.toList, CborPairs.toList_ofPairs,
        CborList.toList_ofList, hin, hcol, houts, hdc, hwd, hsg, hmint,
        hcro, hin2, hcol2, houts2, hdc2, hwd2, hsg2, TxBody.strip]
  | some h =>
    cases colRet with
    | none =>
      simp [TxBody.ofCborItem, TxBody.toCborItem, cMap, cArr,
        CborPairs.ofList, CborPairs.toList, CborPairs.toList_ofPairs,
        CborList.toList_ofList, hin, hcol, houts, hdc, hwd, hsg, hmint,
        hin2, hcol2, houts2, hdc2, hwd2, hsg2, TxBody.strip]
    | some o =>
      have hcro := TxOutput.decode_encode_output strict o (by simpa using hcr)
      simp [TxBody.ofCborItem, TxBody.toCborItem, cMap, cArr,
        CborPairs.ofList, CborPairs.toList, CborPairs.toList_ofPairs,
        CborList.toList_ofList, hin, hcol, houts, hdc, hwd, hsg, hmint,
        hcro, hin2, hcol2, houts2, hdc2, hwd2, hsg2, TxBody.strip]

/-- The single CBOR item of the full (non-fee) transaction encoding: the
4-tuple with the valid flag as written by the source — always `true`. -/
def Tx.toCborItemFull (strict : Bool) (tx : Tx) : CborItem :=
  cArr [tx.body.toCborItem strict, tx.witnesses.toCborItem, .bool true,
    (match tx.metadata with
      | none => CborItem.null
      | some m => m.toCborItem)]

theorem Tx.toCborFull_eq_serialize (strict : Bool) (tx : Tx) :
    Tx.toCbor strict false tx = (Tx.toCborItemFull strict tx).serialize := by
  cases hm : tx.metadata <;>
    simp [Tx.toCbor, Tx.toCborItemFull, serialize_cArr, TxBody.toCbor,
      TxWitnesses.toCbor, TxMetadata.toCbor, encodeBool, encodeNullOption, hm]

/-- Round-trip condition for a transaction: the body condition plus
well-formedness of the full encoded item (all integers in the 8-byte CBOR
range — always true of ledger data). -/
def Tx.wfB (strict : Bool) (tx : Tx) : Bool :=
  tx.body.wfB && (Tx.toCborItemFull strict tx).wf

theorem TxBody.toCborItem_strip (strict : Bool) (b : TxBody) :
    TxBody.toCborItem strict b.strip = TxBody.toCborItem strict b := by
  have hstrip : TxInput.toCborItem ∘ TxInput.strip = TxInput.toCborItem :=
    funext fun i => rfl
  simp [TxBody.toCborItem, TxBody.strip, List.map_map, hstrip]

/-- **C1** (corrected).  Decoding the canonical encoding and re-encoding
with the same flags is byte-identical — but the valid flag always
re-encodes as `true` (`Tx.toCbor` writes `encodeBool(true)` regardless of
the stored field), so the decoded transaction carries the flag of the
input bytes while the re-encoding reproduces the bytes only up to that
flag; on encodings produced by `Tx.toCbor` itself (flag `true`) the round
trip is exact, the decoder dropping only the resolved inputs that the wire
form never carried. -/
theorem claim_c1_roundtrip (strict : Bool) (tx : Tx)
    (hwf : Tx.wfB strict tx = true) :
    Tx.fromCbor (Tx.toCbor strict false tx) =
      some ⟨tx.body.strip, tx.witnesses, true, tx.metadata⟩ ∧
    Tx.toCbor strict false ⟨tx.body.strip, tx.witnesses, true, tx.metadata⟩ =
      Tx.toCbor strict false tx := by
  simp only [Tx.wfB, Bool.and_eq_true] at hwf
  obtain ⟨hb, hw⟩ := hwf
  have hb2 := TxBody.decode_encode_body strict tx.body hb
  have hw2 := TxWitnesses.decode_encode_witnesses tx.witnesses
  have hp : cborParse (Tx.toCbor strict false tx) =
      some (Tx.toCborItemFull strict tx) := by
    rw [Tx.toCborFull_eq_serialize]
    exact cborParse_serialize _ hw
  constructor
  · cases hm : tx.metadata with
    | none =>
      simp [Tx.fromCbor, hp, Tx.toCborItemFull, cArr, CborList.ofList,
        hm, hb2, hw2]
    | some m =>
      simp [Tx.fromCbor, hp, Tx.toCborItemFull, cArr, CborList.ofList,
        hm, hb2, hw2, TxMetadata.toCborItem, TxMetadata.ofCborItem]
  · simp [Tx.toCbor, TxBody.toCbor, TxBody.toCborItem_strip]

/-- A minimal body: no inputs, no outputs, zero fee. -/
def bodyC1 : TxBody := ⟨[], [], 0, [], [], Assets.empty, none, [], [], none⟩

def witC1 : TxWitnesses := ⟨[], [], [], []⟩

/-- A canonical 4-tuple encoding whose valid flag is `false` (as a peer
following the wire format may produce). -/
def txC1bytes : List Nat :=
  encodeTuple [TxBody.toCbor false bodyC1, TxWitnesses.toCbor witC1,
    encodeBool false, encodeNullOption none]

/-- The original claim fails for the decoded valid-flag value `false`:
the bytes decode, but re-encoding with the same flags flips the flag byte
back to `true`, so the output is not byte-identical; the re-encoding even
decodes to a transaction with the opposite flag. -/
theorem claim_c1_counterexample :
    Tx.fromCbor txC1bytes = some ⟨bodyC1, witC1, false, none⟩ ∧
    Tx.toCbor false false ⟨bodyC1, witC1, false, none⟩ ≠ txC1bytes ∧
    Tx.fromCbor (Tx.toCbor false false ⟨bodyC1, witC1, false, none⟩) =
      some ⟨bodyC1, witC1, true, none⟩ := by decide

/-- A small transaction with one input, one output and one signer. -/
def txC1w : Tx :=
  ⟨⟨[⟨⟨List.replicate 32 2, 0⟩, none⟩], [out0], 7, [], [], Assets.empty,
    none, [], [], none⟩, witC1, true, none⟩

theorem claim_c1_roundtrip_witness :
    Tx.wfB false txC1w = true ∧
    (Tx.fromCbor (Tx.toCbor false false txC1w) =
      some ⟨txC1w.body.strip, txC1w.witnesses, true, txC1w.metadata⟩ ∧
    Tx.toCbor false false
        ⟨txC1w.body.strip, txC1w.witnesses, true, txC1w.metadata⟩ =
      Tx.toCbor false false txC1w) :=
  ⟨by decide, claim_c1_roundtrip false txC1w (by decide)⟩

end HeliosTx
